import Mathlib

/-!
# Pareto and Scenario notebooks: a shallow embedding

The two Observable modules `src/Pareto.observable.js` and
`src/Scenario.observable.js` are embedded as pure Lean functions.

Conventions of the embedding
* A JavaScript number is an exact rational; `none : Option ℚ` is `NaN`.
  Rounding to binary64 and the two infinities are outside the model (so the
  literal `Infinity` is read as `NaN` by `parseFloat` below).
* A thrown exception is `Except.error`.
* A plain object used as a dictionary is an association list of its own
  properties in creation order; property reads that miss fall through to
  `Object.prototype`, as they do in the source.
* `Array.prototype.sort` is the stable sort demanded by ECMAScript.
-/

namespace JS

/-- The code points ECMAScript calls `StrWhiteSpaceChar` (white space and line
terminators), which `parseFloat` skips at the start of its argument. -/
def isStrWhiteSpace (c : Char) : Bool :=
  let n := c.toNat
  n == 0x09 || n == 0x0A || n == 0x0B || n == 0x0C || n == 0x0D || n == 0x20 ||
  n == 0xA0 || n == 0x1680 || (0x2000 ≤ n && n ≤ 0x200A) || n == 0x2028 ||
  n == 0x2029 || n == 0x202F || n == 0x205F || n == 0x3000 || n == 0xFEFF

/-- Value of a run of decimal digits, most significant first. -/
def digitsValue (ds : List Char) : Nat :=
  ds.foldl (fun n c => 10 * n + (c.toNat - 48)) 0

/-- Ten to an integer power, as a rational. -/
def pow10 (e : Int) : ℚ :=
  if 0 ≤ e then (10 : ℚ) ^ e.toNat else 1 / (10 : ℚ) ^ (-e).toNat

/-- An optional `+` or `-` in front of a number: `(isNegative, rest)`. -/
def takeSign : List Char → Bool × List Char
  | '-' :: r => (true, r)
  | '+' :: r => (false, r)
  | cs => (false, cs)

/-- The `ExponentPart` of a decimal literal, when one is present: `e` or `E`,
an optional sign and at least one digit. Without a digit the `e` is not part
of the number and the exponent is 0. -/
def exponentOf : List Char → Int
  | c :: r =>
    if c == 'e' || c == 'E' then
      let (neg, r1) := takeSign r
      let ed := r1.takeWhile Char.isDigit
      if ed.isEmpty then 0
      else if neg then -(digitsValue ed : Int) else (digitsValue ed : Int)
    else 0
  | [] => 0

/-- The unsigned decimal literal at the start of `cs`, as `parseFloat` and
`Number` both read it: digits, an optional fraction, an optional exponent.
`none` when `cs` does not start with one, and otherwise the value and what
follows the literal. -/
def readDecimal (cs : List Char) : Option (ℚ × List Char) :=
  let ip := cs.takeWhile Char.isDigit
  let r1 := cs.dropWhile Char.isDigit
  let (fp, r2) :=
    match r1 with
    | '.' :: r => (r.takeWhile Char.isDigit, r.dropWhile Char.isDigit)
    | _ => ([], r1)
  if ip.isEmpty && fp.isEmpty then none
  else
    let mant : ℚ := (digitsValue (ip ++ fp) : ℚ) / (10 : ℚ) ^ fp.length
    let rest :=
      match r2 with
      | c :: r =>
        if c == 'e' || c == 'E' then
          let r1 := (takeSign r).2
          if (r1.takeWhile Char.isDigit).isEmpty then r2 else r1.dropWhile Char.isDigit
        else r2
      | [] => []
    some (mant * pow10 (exponentOf r2), rest)

/-- The global `parseFloat`: skip leading white space, read the longest prefix
that is a signed decimal literal, `NaN` (`none`) when there is none. Whatever
follows the literal is ignored. -/
def parseFloat (s : String) : Option ℚ :=
  let (neg, cs) := takeSign (s.toList.dropWhile isStrWhiteSpace)
  match readDecimal cs with
  | none => none
  | some (v, _) => some (if neg then -v else v)

/-- One step of the insertion that realises a stable sort: `x` stood before
every element of the list and stays in front of the first element it does not
have to follow (`cmp x y ≤ 0`, a `NaN` result counting as `+0`). -/
def sortInsert {α : Type} (cmp : α → α → Option ℚ) (x : α) : List α → List α
  | [] => [x]
  | y :: ys =>
    if (cmp x y).getD 0 ≤ 0 then x :: y :: ys else y :: sortInsert cmp x ys

/-- The method `Array.prototype.sort(cmp)` on a copy of the array. ECMAScript
requires a stable sort; for a consistent comparator its result is unique and
is the one computed here. For an inconsistent comparator the standard leaves
the order to the implementation. -/
def sort {α : Type} (cmp : α → α → Option ℚ) (l : List α) : List α :=
  l.foldr (sortInsert cmp) []

/-- Own property names of a fresh `Object.prototype` whose value is a function
object. A read `obj[key]` of a plain object that has no own property `key`
finds these. -/
def protoFunctionNames : List String :=
  ["constructor", "__defineGetter__", "__defineSetter__", "hasOwnProperty",
   "__lookupGetter__", "__lookupSetter__", "isPrototypeOf", "propertyIsEnumerable",
   "toString", "valueOf", "toLocaleString"]

/-- The number an array-index property name stands for: a canonical numeric
string (no sign, no leading zero except `"0"` itself) at most `2^32 - 2`. -/
def arrayIndex (s : String) : Option Nat :=
  let cs := s.toList
  if cs.isEmpty || !cs.all Char.isDigit then none
  else if cs.head? == some '0' && cs.length ≠ 1 then none
  else if digitsValue cs ≤ 4294967294 then some (digitsValue cs) else none

/-- Insert an array-index property into a list ordered by index. -/
def insertIndexed {β : Type} (p : Nat × String × β) : List (Nat × String × β) → List (Nat × String × β)
  | [] => [p]
  | q :: qs => if p.1 ≤ q.1 then p :: q :: qs else q :: insertIndexed p qs

/-- The order in which `Object.keys` lists the own properties of an ordinary
object: array indices in ascending numeric order first, then the other string
keys in the order they were created. -/
def ownPropertyOrder {β : Type} (own : List (String × β)) : List (String × β) :=
  let idx := own.filterMap (fun p => (arrayIndex p.1).map (fun n => (n, p.1, p.2)))
  (idx.foldr insertIndexed []).map (fun q => q.2) ++
    own.filter (fun p => (arrayIndex p.1).isNone)

/-- Insertion into a `Set`: a value already present keeps its place. -/
def setAdd (acc : List String) (s : String) : List String :=
  if s ∈ acc then acc else acc ++ [s]

/-- The distinct strings of a list in the order of their first occurrence
(`Array.from(new Set(l))`). -/
def firstOccurrences (l : List String) : List String :=
  l.foldl setAdd []

end JS

/-- What the embedded code can throw. -/
inductive JSError where
  | typeError
  | rangeError
deriving DecidableEq, Repr

deriving instance DecidableEq for Except

namespace Pareto

/-- The declared impact metrics (`impactCols`). -/
def impactCols : List String :=
  ["Revenue impact", "Margin impact", "Cash impact", "Customer impact", "Strategic impact"]

/-- One object of `d3.csvParse`: column name and cell text, own properties only. -/
abbrev Record := List (String × String)

/-- The value of `byPain[key]` once created: `count` and one running sum per
impact column (own numeric properties of the object). -/
structure Group where
  count : Nat
  sums : List (String × ℚ)
deriving DecidableEq, Repr

/-- The accumulator `byPain` together with the part of the heap its loop can
change: `own` are the own properties of `byPain` in creation order; `proto`
are the numeric properties the loop has written on `Object.prototype` (which
happens when a record has the key `__proto__`, for which `byPain[key]` is
`Object.prototype` itself). The loop also sets `Object.prototype.count` to
`NaN` there, which reads as falsy like `undefined` and is not recorded. -/
structure ByPain where
  own : List (String × Group)
  proto : List (String × ℚ)
deriving DecidableEq, Repr

/-- The key `d['Pain Points']` as a property name (`undefined` when the
column is missing). -/
def keyOf (d : Record) : String :=
  (d.lookup "Pain Points").getD "undefined"

/-- The number `parseFloat(d[c])`; a column the record lacks is looked up on
`Object.prototype`. -/
def parsed (proto : List (String × ℚ)) (d : Record) (c : String) : Option ℚ :=
  match d.lookup c with
  | some s => JS.parseFloat s
  | none => proto.lookup c

/-- The summand `(isNaN(v) ? 0 : v)` with `v = parseFloat(d[c])`. -/
def contribution (proto : List (String × ℚ)) (d : Record) (c : String) : ℚ :=
  (parsed proto d c).getD 0

/-- The read `(obj[c] || 0)` of an object with own numeric properties `props`
whose prototype chain ends in `Object.prototype`. -/
def readNum (proto props : List (String × ℚ)) (c : String) : ℚ :=
  ((props.lookup c).orElse (fun _ => proto.lookup c)).getD 0

/-- The inner loop `impactCols.forEach(c => obj[c] = (obj[c]||0) + (isNaN(v)?0:v))`
on the object with own numeric properties `props`: the properties afterwards. -/
def addRecord (proto props : List (String × ℚ)) (d : Record) : List (String × ℚ) :=
  impactCols.map (fun c => (c, readNum proto props c + contribution proto d c))

/-- The body of `data.forEach(d => ...)` for one record. -/
def step (st : ByPain) (d : Record) : Except JSError ByPain :=
  let key := keyOf d
  match st.own.lookup key with
  | some g =>
    -- own property: `byPain[key].count++` and the sums
    .ok { st with own := st.own.map (fun p =>
            if p.1 = key then (p.1, { count := g.count + 1, sums := addRecord st.proto g.sums d })
            else p) }
  | none =>
    if key = "__proto__" then
      -- `byPain[key]` is `Object.prototype`: truthy, nothing is created on `byPain`
      .ok { st with proto := addRecord st.proto st.proto d }
    else if key ∈ JS.protoFunctionNames then
      -- `byPain[key]` is an inherited function: truthy, its properties are written
      .ok st
    else if readNum st.proto [] key ≠ 0 then
      -- `byPain[key]` is an inherited nonzero number: `count++` on a primitive throws in strict code
      .error JSError.typeError
    else
      .ok { st with own := st.own ++ [(key, { count := 1, sums := addRecord st.proto [] d })] }

/-- The object `byPain` after `data.forEach`. -/
def byPain (data : List Record) : Except JSError ByPain :=
  data.foldlM step { own := [], proto := [] }

/-- One element of `agg`: the key and, per impact column, the mean. -/
structure AggRow where
  painPoints : String
  cols : List (String × ℚ)
deriving DecidableEq, Repr

/-- The callback of `Object.keys(byPain).map(k => ...)`. -/
def aggRow (proto : List (String × ℚ)) (p : String × Group) : AggRow :=
  { painPoints := p.1
    cols := impactCols.map (fun c => (c, readNum proto p.2.sums c / (p.2.count : ℚ))) }

/-- The array `agg`. -/
def agg (data : List Record) : Except JSError (List AggRow) :=
  (byPain data).map (fun st => (JS.ownPropertyOrder st.own).map (aggRow st.proto))

/-- The number `(d[col] || 0)`, which is also `+d[col] || 0`, for an impact
column `col` (the only columns `prepareTraces` is called with); a row that has
no such member reads 0. -/
def AggRow.num (r : AggRow) (col : String) : ℚ :=
  (r.cols.lookup col).getD 0

/-- The array `sorted` of `prepareTraces`. -/
def sorted (agg : List AggRow) (col : String) : List AggRow :=
  JS.sort (fun a b => some (b.num col - a.num col)) agg

/-- The array `vals` of `prepareTraces`. -/
def vals (agg : List AggRow) (col : String) : List ℚ :=
  (sorted agg col).map (fun d => d.num col)

/-- The array `y` of `prepareTraces`. -/
def y (agg : List AggRow) (col : String) : List String :=
  (sorted agg col).map (fun d => d.painPoints)

/-- The reducer `(acc, v, i) => { if (i===0) acc.push(v); else acc.push(acc[i-1]+v); return acc; }`. -/
def cumStep (acc : List ℚ) (iv : Nat × ℚ) : List ℚ :=
  if iv.1 = 0 then acc ++ [iv.2] else acc ++ [acc.getD (iv.1 - 1) 0 + iv.2]

/-- The array `cum`: `vals.reduce(..., [])`. -/
def cumOf (vs : List ℚ) : List ℚ :=
  vs.enum.foldl cumStep []

/-- The number `total`: `cum.length ? cum[cum.length-1] : 0`. -/
def totalOf (cum : List ℚ) : ℚ :=
  if cum.length = 0 then 0 else cum.getD (cum.length - 1) 0

/-- The array `pct`: `total ? cum.map(v => v/total*100) : cum.map(() => 0)`. -/
def pctOf (cum : List ℚ) : List ℚ :=
  if totalOf cum ≠ 0 then cum.map (fun v => v / totalOf cum * 100) else cum.map (fun _ => 0)

/-- The array `cum` of `prepareTraces(col)`. -/
def cum (agg : List AggRow) (col : String) : List ℚ := cumOf (vals agg col)

/-- The array `pct` of `prepareTraces(col)`. -/
def pct (agg : List AggRow) (col : String) : List ℚ := pctOf (cum agg col)

/-- A Plotly trace, with the members a computation fills in (fixed colours,
modes and legend flags are left out). An entry of `y` is `none` where the
source reads past the end of an array (`undefined`). The member `visible` is
written by `traces`; `prepareTraces` leaves it unset, which Plotly shows, and
that is `true` here. -/
structure Trace where
  type : String
  x : List ℚ
  y : List (Option String)
  name : String
  xaxis : String
  visible : Bool
deriving DecidableEq, Repr

/-- The function `prepareTraces(col)`: `[bar, line, cutoff]`. -/
def prepareTraces (agg : List AggRow) (col : String) : List Trace :=
  let ys := y agg col
  [ { type := "bar", x := vals agg col, y := ys.map some, name := col, xaxis := "x1",
      visible := true },
    { type := "scatter", x := pct agg col, y := ys.map some,
      name := "Cumulative % of " ++ col, xaxis := "x2", visible := true },
    { type := "scatter", x := [80, 80], y := [ys.get? 0, ys.get? (ys.length - 1)],
      name := "80% cutoff for " ++ col, xaxis := "x2", visible := true } ]

/-- The constant `defaultCol = impactCols[0]`. -/
def defaultCol : Option String := impactCols.get? 0

/-- The array `traces`: the three traces of every impact column, visible only
for the default column. -/
def traces (agg : List AggRow) : List Trace :=
  impactCols.flatMap (fun col =>
    (prepareTraces agg col).map (fun t => { t with visible := (some col == defaultCol) }))

/-- The `visible` argument of the `i`-th button. -/
def visibility (i : Nat) : List Bool :=
  (impactCols.enum.map (fun jc => [jc.1 == i, jc.1 == i, jc.1 == i])).flatten

/-- What the chart cell hands to Plotly, or the message it shows instead. -/
inductive View where
  | noData
  | chart (traces : List Trace) (buttons : List (String × List Bool))
deriving DecidableEq, Repr

/-- The chart cell: the early return on an empty dataset, else the traces and
the selector buttons. -/
def view (data : List Record) : Except JSError View :=
  if data.length = 0 then .ok View.noData
  else (agg data).map (fun a =>
    View.chart (traces a) (impactCols.enum.map (fun ic => (ic.2, visibility ic.1))))

/-- Partial sums of `vs` on top of `s`: `[s + v₀, s + v₀ + v₁, ...]`. It is
what the reducer of `cum` is compared with. -/
def runningSums (s : ℚ) : List ℚ → List ℚ
  | [] => []
  | v :: vs => (s + v) :: runningSums (s + v) vs

/-- The records of one key. -/
def recordsOf (data : List Record) (k : String) : List Record :=
  data.filter (fun d => keyOf d == k)

/-- The numbers `parseFloat(d[c])` of the records of key `k` that are not `NaN`
(with `Object.prototype` untouched). -/
def validValues (data : List Record) (k c : String) : List ℚ :=
  (recordsOf data k).filterMap (fun d => parsed [] d c)

/-- The mean the specification asks for: the sum of the valid values over
their number, and 0 when there is none. -/
def meanOfValid (data : List Record) (k c : String) : ℚ :=
  if (validValues data k c).length = 0 then 0
  else (validValues data k c).sum / ((validValues data k c).length : ℚ)

/-- The value of `byPain[k]` in closed form: the number of records of `k` and,
per impact column, the sum of their summands. -/
def groupOf (data : List Record) (k : String) : Group :=
  { count := (recordsOf data k).length
    sums := impactCols.map (fun c =>
      (c, ((recordsOf data k).map (fun d => contribution [] d c)).sum)) }

/-- The keys that become own properties of `byPain`, in creation order: the
keys of the records in first-occurrence order, without those that name a
function of `Object.prototype`. -/
def keysOf (data : List Record) : List String :=
  JS.firstOccurrences ((data.map keyOf).filter (fun k => decide (k ∉ JS.protoFunctionNames)))

/-- The own properties of `byPain` in closed form. -/
def ownOf (data : List Record) : List (String × Group) :=
  (keysOf data).map (fun k => (k, groupOf data k))

end Pareto

namespace JS

/-- A `Date` object: its time value, milliseconds since 1 January 1970 UTC;
`none` is the `NaN` time value of an invalid date. -/
structure Date where
  time : Option ℤ
deriving DecidableEq, Repr

/-- The constant `msPerDay`. -/
def msPerDay : ℤ := 86400000

/-- The abstract operation `DayFromYear(y)`: the day number of 1 January of year `y`. -/
def dayFromYear (y : ℤ) : ℤ :=
  365 * (y - 1970) + (y - 1969) / 4 - (y - 1901) / 100 + (y - 1601) / 400

/-- The abstract operation `InLeapYear`, for a year. -/
def inLeapYear (y : ℤ) : Bool :=
  (y % 4 == 0 && y % 100 != 0) || y % 400 == 0

/-- Day within the year of the first day of zero-based month `mn`. -/
def monthStart (mn : ℤ) (leap : Bool) : ℤ :=
  let l : ℤ := if leap then 1 else 0
  if mn = 0 then 0 else if mn = 1 then 31 else if mn = 2 then 59 + l
  else if mn = 3 then 90 + l else if mn = 4 then 120 + l else if mn = 5 then 151 + l
  else if mn = 6 then 181 + l else if mn = 7 then 212 + l else if mn = 8 then 243 + l
  else if mn = 9 then 273 + l else if mn = 10 then 304 + l else 334 + l

/-- The abstract operation `MakeDay(year, month, 1)`: months outside `0..11`
are carried into the year. -/
def makeDay (year month : ℤ) : ℤ :=
  let ym := year + month / 12
  let mn := month % 12
  dayFromYear ym + monthStart mn (inLeapYear ym)

/-- The abstract operation `TimeClip`. -/
def timeClip (t : ℤ) : Option ℤ :=
  if -8640000000000000 ≤ t ∧ t ≤ 8640000000000000 then some t else none

/-- The call `Date.UTC(year, month, 1)` on integers: a year in `0..99` stands
for `1900 + year`. -/
def dateUTC (year month : ℤ) : Option ℤ :=
  let yr := if 0 ≤ year ∧ year ≤ 99 then 1900 + year else year
  timeClip (makeDay yr month * msPerDay)

/-- The operator `a || b` on values that are a string or `undefined`: the
first operand when it is a non-empty string, else the second. -/
def orElseStr (a b : Option String) : Option String :=
  match a with
  | some s => if s = "" then b else some s
  | none => b

/-- The call `s.replace(c, r)` for a one-character pattern: only the first
occurrence is replaced. -/
def replaceFirst (c : Char) (r : List Char) : List Char → List Char
  | [] => []
  | x :: xs => if x == c then r ++ xs else x :: replaceFirst c r xs

/-- Value of a run of hexadecimal, octal or binary digits in base `b`; `none`
when a character is not a digit of that base or the run is empty. -/
def digitsInBase (b : Nat) (cs : List Char) : Option Nat :=
  let digit (c : Char) : Option Nat :=
    if c.isDigit then some (c.toNat - 48)
    else if 97 ≤ c.toNat ∧ c.toNat ≤ 102 then some (c.toNat - 87)
    else if 65 ≤ c.toNat ∧ c.toNat ≤ 70 then some (c.toNat - 55)
    else none
  if cs.isEmpty then none
  else cs.foldl (fun acc c =>
    match acc, digit c with
    | some n, some d => if d < b then some (b * n + d) else none
    | _, _ => none) (some 0)

/-- The conversion `Number(s)` (unary `+`) of a string: white space is trimmed
on both sides, the empty string is 0, and the whole rest must be one numeric
literal (decimal with optional sign, or `0x`, `0o`, `0b` integer). -/
def toNumber (s : String) : Option ℚ :=
  let cs := ((s.toList.dropWhile isStrWhiteSpace).reverse.dropWhile isStrWhiteSpace).reverse
  match cs with
  | [] => some 0
  | '0' :: p :: ds =>
    if p == 'x' || p == 'X' then (digitsInBase 16 ds).map (fun n => (n : ℚ))
    else if p == 'o' || p == 'O' then (digitsInBase 8 ds).map (fun n => (n : ℚ))
    else if p == 'b' || p == 'B' then (digitsInBase 2 ds).map (fun n => (n : ℚ))
    else
      match readDecimal cs with
      | some (v, []) => some v
      | _ => none
  | _ =>
    let (neg, r) := takeSign cs
    match readDecimal r with
    | some (v, []) => some (if neg then -v else v)
    | _ => none

end JS

namespace Scenario

/-- The declared metrics (`metrics`). -/
def metrics : List String :=
  ["Gross Revenue", "Net Margins", "Net Revenue Retention", "CAC Payback"]

/-- The group `Q(\d)` at the end of the pattern, at the start of the input. -/
def matchTail : List Char → Option Char
  | q :: d :: _ => if (q == 'Q' || q == 'q') && d.isDigit then some d else none
  | _ => none

/-- The pattern `/(\d{4})[- ]?Q(\d)/i` anchored where the input starts: the
two captures. The optional separator is tried first and then skipped. -/
def matchHere : List Char → Option (List Char × Char)
  | a :: b :: c :: d :: rest =>
    if a.isDigit && b.isDigit && c.isDigit && d.isDigit then
      let withSep : Option Char :=
        match rest with
        | s :: r => if s == '-' || s == ' ' then matchTail r else none
        | [] => none
      (withSep.orElse (fun _ => matchTail rest)).map (fun n => ([a, b, c, d], n))
    else none
  | _ => none

/-- The call `s.match(/(\d{4})[- ]?Q(\d)/i)`: the leftmost match. -/
def search : List Char → Option (List Char × Char)
  | [] => none
  | c :: cs => (matchHere (c :: cs)).orElse (fun _ => search cs)

/-- The helper `quarterToDate(q)`; `none` is `null`. The host function
`Date.parse` behind `new Date(q)` is a parameter (its result for a string that
is not in the ISO format is left to the implementation); it returns `none` for
`NaN`. -/
def quarterToDate (dateParse : String → Option ℤ) (q : Option String) : Option JS.Date :=
  match q with
  | none => none
  | some q =>
    if q = "" then none
    else
      let s := JS.replaceFirst 'q' ['Q'] (JS.replaceFirst ' ' [] q.toList)
      match search s with
      | none => some { time := (dateParse q).bind JS.timeClip }
      | some (ys, n) =>
        let year : ℤ := (JS.digitsValue ys : ℤ)
        let qnum : ℤ := (JS.digitsValue [n] : ℤ)
        let month := (qnum - 1) * 3
        some { time := (JS.dateUTC year month).bind JS.timeClip }

/-- One object of `d3.csvParse` for the scenario notebook. -/
abbrev RawRow := List (String × String)

/-- A row as the `data` cell returns it: the text columns the notebook reads
(`none` when the file has no such column), the added `QuarterDate`, and the
four metric columns, which by then hold numbers (`none` is `NaN`). -/
structure Row where
  Scenario : Option String
  Quarter : Option String
  Quarters : Option String
  QuarterDate : Option JS.Date
  grossRevenue : Option ℚ
  netMargins : Option ℚ
  netRevenueRetention : Option ℚ
  cacPayback : Option ℚ
deriving DecidableEq, Repr

/-- The read `r[m]` of a metric column. -/
def Row.get (r : Row) (m : String) : Option ℚ :=
  if m = "Gross Revenue" then r.grossRevenue
  else if m = "Net Margins" then r.netMargins
  else if m = "Net Revenue Retention" then r.netRevenueRetention
  else if m = "CAC Payback" then r.cacPayback
  else none

/-- The write `r[m] = v` of a metric column. -/
def Row.set (r : Row) (m : String) (v : Option ℚ) : Row :=
  if m = "Gross Revenue" then { r with grossRevenue := v }
  else if m = "Net Margins" then { r with netMargins := v }
  else if m = "Net Revenue Retention" then { r with netRevenueRetention := v }
  else if m = "CAC Payback" then { r with cacPayback := v }
  else r

/-- The expression `v == null || v === '' ? NaN : +String(v).replace(/[,$%]/g, '')`. -/
def parseMetric (v : Option String) : Option ℚ :=
  match v with
  | none => none
  | some s =>
    if s = "" then none
    else JS.toNumber (String.mk (s.toList.filter (fun c => !(c == ',' || c == '$' || c == '%'))))

/-- The first loop of the `data` cell for one row. -/
def normalizeRow (dateParse : String → Option ℤ) (r : RawRow) : Row :=
  { Scenario := r.lookup "Scenario"
    Quarter := r.lookup "Quarter"
    Quarters := r.lookup "Quarters"
    QuarterDate := quarterToDate dateParse
      (JS.orElseStr (JS.orElseStr (r.lookup "Quarter") (r.lookup "Quarters")) (r.lookup "Quarter"))
    grossRevenue := parseMetric (r.lookup "Gross Revenue")
    netMargins := parseMetric (r.lookup "Net Margins")
    netRevenueRetention := parseMetric (r.lookup "Net Revenue Retention")
    cacPayback := parseMetric (r.lookup "CAC Payback") }

/-- The array `vals` of the scale step: `rows.map(r => r[m]).filter(v => !isNaN(v))`. -/
def validVals (rows : List Row) (m : String) : List ℚ :=
  (rows.map (fun r => r.get m)).filterMap id

/-- The body of the second `metrics.forEach` for one metric `m`. -/
def scaleMetric (rows : List Row) (m : String) : List Row :=
  match validVals rows m with
  | [] => rows
  | v :: vs =>
    let max := vs.foldl (fun a b => if a < b then b else a) v
    if (m = "Net Margins" ∨ m = "Net Revenue Retention") ∧ max ≤ 5 then
      rows.map (fun r =>
        match r.get m with
        | some x => r.set m (some (x * 100))
        | none => r)
    else rows

/-- The scale step: the second `metrics.forEach` of the `data` cell. -/
def scale (rows : List Row) : List Row :=
  metrics.foldl scaleMetric rows

/-- The `data` cell on the parsed file. -/
def data (dateParse : String → Option ℤ) (raw : List RawRow) : List Row :=
  scale (raw.map (normalizeRow dateParse))

/-- The number `(d.QuarterDate || 0)` takes in the subtraction: 0 for `null`,
the time value of a date (`NaN` for an invalid one). -/
def sortKey (d : Row) : Option ℚ :=
  match d.QuarterDate with
  | none => some 0
  | some date => date.time.map (fun t => (t : ℚ))

/-- The comparator `(a,b) => (a.QuarterDate || 0) - (b.QuarterDate || 0)`. -/
def byQuarterDate (a b : Row) : Option ℚ :=
  match sortKey a, sortKey b with
  | some x, some y => some (x - y)
  | _, _ => none

/-- The array `filtered`. -/
def filtered (data : List Row) (scenario : String) : List Row :=
  JS.sort byQuarterDate (data.filter (fun d => d.Scenario == some scenario))

/-- The member `Quarter` of a point: the ISO rendering of an instant
(`toISOString()`), or the label `(d.Quarter || d.Quarters)`. -/
inductive QuarterText where
  | iso (time : ℤ)
  | label (text : Option String)
deriving DecidableEq, Repr

/-- An element of `values`; a `value` of `none` is `null`. -/
structure Point where
  Quarter : QuarterText
  value : Option ℚ
deriving DecidableEq, Repr

/-- The callback of `filtered.map(d => ({Quarter: ..., value: ...}))`;
the method `toISOString` throws a `RangeError` on an invalid date. -/
def point (metric : String) (d : Row) : Except JSError Point :=
  let value : Option ℚ :=
    match d.get metric with
    | none => none
    | some x => some x
  match d.QuarterDate with
  | some { time := some t } => .ok { Quarter := QuarterText.iso t, value := value }
  | some { time := none } => .error JSError.rangeError
  | none => .ok { Quarter := QuarterText.label (JS.orElseStr d.Quarter d.Quarters), value := value }

/-- The array `values` for one metric. -/
def values (rows : List Row) (metric : String) : Except JSError (List Point) :=
  rows.mapM (point metric)

/-- What the chart cell shows. -/
inductive Result where
  | noData
  | noRows
  | charts (series : List (String × List Point))
deriving DecidableEq, Repr

/-- The chart cell: the two early returns, then one series per metric. -/
def chartCell (data : List Row) (scenario : String) : Except JSError Result :=
  if data.length = 0 then .ok Result.noData
  else if (filtered data scenario).length = 0 then .ok Result.noRows
  else (metrics.mapM (fun m => (values (filtered data scenario) m).map (fun v => (m, v)))).map
    Result.charts

/-- The cell `scenarios`: `Array.from(new Set(data.map(d => d.Scenario).filter(Boolean)))`. -/
def scenarios (data : List Row) : List String :=
  JS.firstOccurrences ((data.filterMap (fun d => d.Scenario)).filter (fun s => s ≠ ""))

/-- The array `opts` of the selector. -/
def opts (scenarios : List String) : List String :=
  if scenarios.length ≠ 0 then scenarios else ["Base", "Optimistic", "Pessimistic"]

/-- The initial value `defaultVal` of the selector. -/
def defaultVal (scenarios : List String) : Option String :=
  if "Base" ∈ opts scenarios then some "Base" else (opts scenarios).get? 0

end Scenario

namespace Calendar

/-- Days from 1 January 1970 to the day `d` of month `m` (1 to 12) of year `y`
in the proleptic Gregorian calendar, counted by eras of 400 years. It is the
calendar the claims about dates are stated in, written independently of the
`Date` operations above. -/
def daysFromCivil (y m d : ℤ) : ℤ :=
  let y1 := if m ≤ 2 then y - 1 else y
  let era := y1 / 400
  let yoe := y1 - era * 400
  let mp := (m + 9) % 12
  let doy := (153 * mp + 2) / 5 + d - 1
  let doe := yoe * 365 + yoe / 4 - yoe / 100 + doy
  era * 146097 + doe - 719468

/-- The instant 00:00 UTC of a civil date, in milliseconds since the epoch. -/
def utcMidnight (y m d : ℤ) : ℤ :=
  daysFromCivil y m d * 86400000

end Calendar

namespace Scenario

/-- A host `Date.parse` that recognises no string; it stands in where the
result of the host function is not used or where the label is not a date in
any format. -/
def parsesNothing : String → Option ℤ := fun _ => none

end Scenario

/-! ## Concrete inputs used by the examples -/

namespace Pareto

/-- The records of the worked example of the specification, with
`Revenue impact` as the metric `m`. -/
def exampleRecords : List Record :=
  [ [("Pain Points", "A"), ("Revenue impact", "10")],
    [("Pain Points", "A"), ("Revenue impact", "20")],
    [("Pain Points", "B"), ("Revenue impact", "5")] ]

/-- Two records of one key, the second with an empty cell. -/
def mixedRecords : List Record :=
  [ [("Pain Points", "A"), ("Revenue impact", "10")],
    [("Pain Points", "A"), ("Revenue impact", "")] ]

/-- A record whose key is `__proto__`, followed by a record of key `A`. -/
def protoRecords : List Record :=
  [ [("Pain Points", "__proto__"), ("Revenue impact", "5")],
    [("Pain Points", "A"), ("Revenue impact", "10")] ]

/-- Records whose keys are, in this order, `b`, `10`, `2` and `constructor`. -/
def indexKeyRecords : List Record :=
  [ [("Pain Points", "b"), ("Revenue impact", "1")],
    [("Pain Points", "10"), ("Revenue impact", "2")],
    [("Pain Points", "2"), ("Revenue impact", "3")],
    [("Pain Points", "constructor"), ("Revenue impact", "4")] ]

/-- Two aggregated rows. -/
def exampleAgg : List AggRow :=
  [ { painPoints := "A", cols := [("Revenue impact", 15)] },
    { painPoints := "B", cols := [("Revenue impact", 5)] } ]

end Pareto

namespace Scenario

/-- A row of scenario `Base` with the given label, date and net margin. -/
def baseRow (label : String) (date : Option JS.Date) (netMargins : Option ℚ) : Row :=
  { Scenario := some "Base", Quarter := some label, Quarters := none, QuarterDate := date,
    grossRevenue := some 100, netMargins := netMargins, netRevenueRetention := none,
    cacPayback := none }

/-- Three rows whose net margins are the ratios 0.1, 0.4 and 0.9. -/
def ratioRows : List Row :=
  [ baseRow "2024-Q1" (some { time := some 1704067200000 }) (some (1 / 10)),
    baseRow "2024-Q2" (some { time := some 1711929600000 }) (some (4 / 10)),
    baseRow "2024-Q3" (some { time := some 1719792000000 }) (some (9 / 10)) ]

/-- Three rows whose net margins are the percentages 10, 40 and 90. -/
def percentRows : List Row :=
  [ baseRow "2024-Q1" (some { time := some 1704067200000 }) (some 10),
    baseRow "2024-Q2" (some { time := some 1711929600000 }) (some 40),
    baseRow "2024-Q3" (some { time := some 1719792000000 }) (some 90) ]

/-- A row without a period label followed by a row of the last quarter of 1969. -/
def earlyRows : List Row :=
  [ baseRow "" none (some 1),
    baseRow "1969-Q4" (some { time := some (-7948800000) }) (some 2) ]

/-- A row of 2024, a row whose label is not a date, a row of 2023. -/
def invalidDateRows : List Row :=
  [ baseRow "2024-Q1" (some { time := some 1704067200000 }) (some 1),
    baseRow "n/a" (some { time := none }) (some 2),
    baseRow "2023-Q1" (some { time := some 1672531200000 }) (some 3) ]

end Scenario

namespace JS

/-- The distinct strings of a list in first-occurrence order, by recursion on
the list: the head, then the distinct strings of the tail other than the head.
It states "distinct values in first-occurrence order" without a `Set`. -/
def distinctFirst : List String → List String
  | [] => []
  | x :: xs => x :: (distinctFirst xs).filter (fun y => decide (y ≠ x))

end JS

namespace Pareto

/-- The mean over all records of a key in which a value that does not parse
counts as 0: the sum over the records of the key of the parsed value, or 0,
divided by the number of all records of the key. -/
def zeroFilledMean (data : List Record) (k c : String) : ℚ :=
  ((recordsOf data k).map (fun d => (parsed [] d c).getD 0)).sum /
    ((recordsOf data k).length : ℚ)

/-- A record of key `__proto__` with a revenue impact of 5, then a record
whose key is the column name `Revenue impact`. -/
def typeErrorRecords : List Record :=
  [ [("Pain Points", "__proto__"), ("Revenue impact", "5")],
    [("Pain Points", "Revenue impact"), ("Revenue impact", "1")] ]

/-- One record, of key `constructor`. -/
def constructorRecords : List Record :=
  [ [("Pain Points", "constructor"), ("Revenue impact", "3")] ]

/-- A record of key `__proto__` with a revenue impact of 7, then two records of
key `B`, with the revenue impacts 1 and empty. -/
def pollutedRecords : List Record :=
  [ [("Pain Points", "__proto__"), ("Revenue impact", "7")],
    [("Pain Points", "B"), ("Revenue impact", "1")],
    [("Pain Points", "B"), ("Revenue impact", "")] ]

end Pareto

namespace Scenario

/-- One parsed line of scenario `Base` whose period label is `n/a`. -/
def rawInvalid : List RawRow :=
  [ [("Scenario", "Base"), ("Quarter", "n/a"), ("Gross Revenue", "$1,200"),
     ("Net Margins", "0.2"), ("Net Revenue Retention", "1.1"), ("CAC Payback", "12")] ]

/-- Two parsed lines of scenario `Base` with quarter labels. -/
def rawValid : List RawRow :=
  [ [("Scenario", "Base"), ("Quarter", "2024-Q2"), ("Gross Revenue", "$1,200"),
     ("Net Margins", "0.2"), ("Net Revenue Retention", "1.1"), ("CAC Payback", "12")],
    [("Scenario", "Base"), ("Quarter", "2024-Q1"), ("Gross Revenue", ""),
     ("Net Margins", "0.1"), ("Net Revenue Retention", "x"), ("CAC Payback", "10")] ]

/-- A row of scenario `Base` all of whose metrics are `NaN`. -/
def nanRow (label : String) (date : Option JS.Date) : Row :=
  { Scenario := some "Base", Quarter := some label, Quarters := none, QuarterDate := date,
    grossRevenue := none, netMargins := none, netRevenueRetention := none, cacPayback := none }

/-- Two rows of scenario `Base` all of whose metrics are `NaN`. -/
def nanRows : List Row :=
  [ nanRow "2024-Q1" (some { time := some 1704067200000 }),
    nanRow "2024-Q2" (some { time := some 1711929600000 }) ]

/-- One row of scenario `Base` whose label `FY24` gave an invalid date. -/
def fiscalRows : List Row :=
  [ baseRow "FY24" (some { time := none }) (some 1) ]

/-- A row with the given `Scenario` cell. -/
def scenarioRow (s : Option String) : Row :=
  { Scenario := s, Quarter := some "2024-Q1", Quarters := none,
    QuarterDate := some { time := some 1704067200000 },
    grossRevenue := some 1, netMargins := none, netRevenueRetention := none, cacPayback := none }

/-- Rows with the `Scenario` cells `Optimistic`, empty, `Base`, `Optimistic`
and a row without the column. -/
def scenarioRows : List Row :=
  [ scenarioRow (some "Optimistic"), scenarioRow (some ""), scenarioRow (some "Base"),
    scenarioRow (some "Optimistic"), scenarioRow none ]

/-- Rows with the `Scenario` cells `Pessimistic`, `Optimistic`, `Pessimistic`. -/
def otherScenarioRows : List Row :=
  [ scenarioRow (some "Pessimistic"), scenarioRow (some "Optimistic"),
    scenarioRow (some "Pessimistic") ]

end Scenario

/-! # Lemmas -/

/-! ## Properties of the stable sort -/

namespace JS

theorem sortInsert_perm {α : Type} (cmp : α → α → Option ℚ) (x : α) (l : List α) :
    (sortInsert cmp x l).Perm (x :: l) := by
  induction l with
  | nil => exact List.Perm.refl _
  | cons y ys ih =>
    unfold sortInsert
    split
    · exact List.Perm.refl _
    · exact ((List.Perm.cons y ih).trans (List.Perm.swap x y ys))

theorem sort_perm {α : Type} (cmp : α → α → Option ℚ) (l : List α) :
    (sort cmp l).Perm l := by
  induction l with
  | nil => exact List.Perm.refl _
  | cons x xs ih =>
    show (sortInsert cmp x (sort cmp xs)).Perm (x :: xs)
    exact (sortInsert_perm cmp x _).trans (List.Perm.cons x ih)

theorem sort_length {α : Type} (cmp : α → α → Option ℚ) (l : List α) :
    (sort cmp l).length = l.length :=
  (sort_perm cmp l).length_eq

theorem mem_sort {α : Type} (cmp : α → α → Option ℚ) (l : List α) (a : α) :
    a ∈ sort cmp l ↔ a ∈ l :=
  (sort_perm cmp l).mem_iff

/-- Inserting into a list ordered by a key keeps it ordered, when the
comparator agrees with the order of the keys on the elements compared. -/
theorem sortInsert_pairwise {α : Type} (cmp : α → α → Option ℚ) (key : α → ℚ) (x : α)
    (l : List α) (hcmp : ∀ b ∈ l, ((cmp x b).getD 0 ≤ 0 ↔ key x ≤ key b))
    (hl : l.Pairwise (fun a b => key a ≤ key b)) :
    (sortInsert cmp x l).Pairwise (fun a b => key a ≤ key b) := by
  induction l with
  | nil => simp [sortInsert]
  | cons y ys ih =>
    have hy := List.pairwise_cons.mp hl
    have hxy_iff := hcmp y (List.mem_cons_self _ _)
    unfold sortInsert
    split
    · rename_i hxy
      have hxy1 : key x ≤ key y := hxy_iff.mp hxy
      refine List.pairwise_cons.mpr ⟨?_, hl⟩
      intro b hb
      rcases List.mem_cons.mp hb with rfl | hb
      · exact hxy1
      · exact le_trans hxy1 (hy.1 b hb)
    · rename_i hxy
      have hyx : key y ≤ key x := by
        have : ¬ key x ≤ key y := fun h => hxy (hxy_iff.mpr h)
        exact le_of_lt (not_le.mp this)
      refine List.pairwise_cons.mpr
        ⟨?_, ih (fun b hb => hcmp b (List.mem_cons_of_mem _ hb)) hy.2⟩
      intro b hb
      rcases List.mem_cons.mp ((sortInsert_perm cmp x ys).mem_iff.mp hb) with rfl | hb
      · exact hyx
      · exact hy.1 b hb

theorem sort_pairwise {α : Type} (cmp : α → α → Option ℚ) (key : α → ℚ) (l : List α)
    (hcmp : ∀ a ∈ l, ∀ b ∈ l, ((cmp a b).getD 0 ≤ 0 ↔ key a ≤ key b)) :
    (sort cmp l).Pairwise (fun a b => key a ≤ key b) := by
  induction l with
  | nil => exact List.Pairwise.nil
  | cons x xs ih =>
    have ih1 := ih (fun a ha b hb =>
      hcmp a (List.mem_cons_of_mem _ ha) b (List.mem_cons_of_mem _ hb))
    refine sortInsert_pairwise cmp key x _ ?_ ih1
    intro b hb
    exact hcmp x (List.mem_cons_self _ _) b
      (List.mem_cons_of_mem _ ((mem_sort cmp xs b).mp hb))

/-- Insertion never moves `x` behind an element of its own class `P`. -/
theorem filter_sortInsert {α : Type} (cmp : α → α → Option ℚ) (P : α → Bool) (x : α)
    (l : List α) (hP : ∀ y ∈ l, P x = true → P y = true → (cmp x y).getD 0 ≤ 0) :
    (sortInsert cmp x l).filter P = (x :: l).filter P := by
  induction l with
  | nil => rfl
  | cons y ys ih =>
    unfold sortInsert
    split
    · rfl
    · rename_i hxy
      have ih1 := ih (fun z hz => hP z (List.mem_cons_of_mem _ hz))
      by_cases hy : P y = true
      · have hx : P x = false := by
          cases hpx : P x with
          | false => rfl
          | true => exact absurd (hP y (List.mem_cons_self _ _) hpx hy) hxy
        simp only [List.filter_cons, hy, hx, if_true] at ih1 ⊢
        simp [ih1]
      · simp only [Bool.not_eq_true] at hy
        simp only [List.filter_cons, hy] at ih1 ⊢
        simpa using ih1

/-- Stability: the elements of one class keep the order they had. -/
theorem filter_sort {α : Type} (cmp : α → α → Option ℚ) (P : α → Bool)
    (hP : ∀ x y, P x = true → P y = true → (cmp x y).getD 0 ≤ 0) (l : List α) :
    (sort cmp l).filter P = l.filter P := by
  induction l with
  | nil => rfl
  | cons x xs ih =>
    show (sortInsert cmp x (sort cmp xs)).filter P = (x :: xs).filter P
    rw [filter_sortInsert cmp P x _ (fun y _ => hP x y)]
    simp only [List.filter_cons, ih]

end JS

namespace Pareto

theorem sorted_cmp (col : String) (a b : AggRow) :
    ((fun a b : AggRow => (some (b.num col - a.num col) : Option ℚ)) a b).getD 0 ≤ 0 ↔
      -(a.num col) ≤ -(b.num col) := by
  simp only [Option.getD_some]
  constructor <;> intro h <;> linarith

theorem sorted_perm (agg : List AggRow) (col : String) : (sorted agg col).Perm agg :=
  JS.sort_perm _ agg

theorem sorted_length (agg : List AggRow) (col : String) :
    (sorted agg col).length = agg.length :=
  JS.sort_length _ agg

theorem sorted_descending (agg : List AggRow) (col : String) :
    (sorted agg col).Pairwise (fun a b => b.num col ≤ a.num col) := by
  have h := JS.sort_pairwise (fun a b : AggRow => (some (b.num col - a.num col) : Option ℚ))
    (fun r => -(r.num col)) agg (fun a _ b _ => sorted_cmp col a b)
  exact h.imp (fun hab => by simp only [neg_le_neg_iff] at hab; exact hab)

theorem sorted_filter_eq (agg : List AggRow) (col : String) (v : ℚ) :
    (sorted agg col).filter (fun r => decide (r.num col = v)) =
      agg.filter (fun r => decide (r.num col = v)) := by
  apply JS.filter_sort
  intro x y hx hy
  simp only [decide_eq_true_eq] at hx hy
  simp [hx, hy]

theorem sorted_pair (agg : List AggRow) (col : String) (a b : AggRow)
    (hab : a.num col = b.num col) (h : List.Sublist [a, b] agg) :
    List.Sublist [a, b] (sorted agg col) := by
  have h1 := h.filter (fun r => decide (r.num col = a.num col))
  have h2 : [a, b].filter (fun r => decide (r.num col = a.num col)) = [a, b] := by
    simp [hab]
  rw [h2, ← sorted_filter_eq agg col (a.num col)] at h1
  exact h1.trans (List.filter_sublist _)

theorem runningSums_length (s : ℚ) (vs : List ℚ) : (runningSums s vs).length = vs.length := by
  induction vs generalizing s with
  | nil => rfl
  | cons v vs ih => simp [runningSums, ih]

theorem runningSums_getElem? (s : ℚ) (vs : List ℚ) (i : Nat) (hi : i < vs.length) :
    (runningSums s vs)[i]? = some (s + (vs.take (i + 1)).sum) := by
  induction vs generalizing s i with
  | nil => simp at hi
  | cons v vs ih =>
    cases i with
    | zero => simp [runningSums]
    | succ j =>
      have hj : j < vs.length := by simpa using hi
      simp only [runningSums, List.getElem?_cons_succ, List.take_succ_cons, List.sum_cons]
      rw [ih (s + v) j hj, add_assoc]

/-- The value `acc[i-1]` the reducer adds to, or 0 for the first element. -/
theorem cumStep_eq (acc : List ℚ) (v : ℚ) :
    cumStep acc (acc.length, v) =
      acc ++ [(if acc.length = 0 then 0 else acc.getD (acc.length - 1) 0) + v] := by
  unfold cumStep
  by_cases h : acc.length = 0 <;> simp [h]

theorem foldl_cumStep (vs : List ℚ) (acc : List ℚ) :
    (vs.enumFrom acc.length).foldl cumStep acc =
      acc ++ runningSums (if acc.length = 0 then 0 else acc.getD (acc.length - 1) 0) vs := by
  induction vs generalizing acc with
  | nil => simp [runningSums]
  | cons v vs ih =>
    simp only [List.enumFrom_cons, List.foldl_cons, cumStep_eq, runningSums]
    have hlen : (acc ++ [(if acc.length = 0 then 0 else acc.getD (acc.length - 1) 0) + v]).length
        = acc.length + 1 := by simp
    have := ih (acc ++ [(if acc.length = 0 then 0 else acc.getD (acc.length - 1) 0) + v])
    rw [hlen] at this
    rw [this]
    simp [List.getD_eq_getElem?_getD]

theorem cumOf_eq (vs : List ℚ) : cumOf vs = runningSums 0 vs := by
  have := foldl_cumStep vs []
  simpa [cumOf, List.enum] using this

theorem cumOf_length (vs : List ℚ) : (cumOf vs).length = vs.length := by
  rw [cumOf_eq, runningSums_length]

theorem cumOf_getElem? (vs : List ℚ) (i : Nat) (hi : i < vs.length) :
    (cumOf vs)[i]? = some ((vs.take (i + 1)).sum) := by
  rw [cumOf_eq, runningSums_getElem? 0 vs i hi, zero_add]

theorem totalOf_eq_getLast (c : List ℚ) (hc : c ≠ []) : c.getLast? = some (totalOf c) := by
  have hlen : c.length ≠ 0 := by simpa using hc
  have hlt : c.length - 1 < c.length := by omega
  simp [totalOf, hlen, List.getLast?_eq_getElem?, List.getD_eq_getElem?_getD,
    List.getElem?_eq_getElem hlt]

theorem pctOf_length (c : List ℚ) : (pctOf c).length = c.length := by
  unfold pctOf
  split <;> simp

theorem pctOf_getLast (c : List ℚ) (hc : c ≠ []) (ht : totalOf c ≠ 0) :
    (pctOf c).getLast? = some 100 := by
  have h := totalOf_eq_getLast c hc
  simp only [pctOf, ht, ne_eq, not_false_eq_true, if_true, List.getLast?_map, h, Option.map_some']
  rw [div_self ht, one_mul]

theorem pctOf_zero (c : List ℚ) (ht : totalOf c = 0) : ∀ p ∈ pctOf c, p = 0 := by
  intro p hp
  simp only [pctOf, ht, ne_eq, not_true_eq_false, if_false, List.mem_map] at hp
  obtain ⟨_, _, rfl⟩ := hp
  rfl

theorem pctOf_getElem? (c : List ℚ) (ht : totalOf c ≠ 0) (i : Nat) :
    (pctOf c).get? i = (c.get? i).map (fun v => v / totalOf c * 100) := by
  simp [pctOf, ht]

theorem vals_length (agg : List AggRow) (col : String) : (vals agg col).length = agg.length := by
  simp [vals, sorted_length]

theorem cum_length (agg : List AggRow) (col : String) : (cum agg col).length = agg.length := by
  simp [cum, cumOf_length, vals_length]

theorem pct_length (agg : List AggRow) (col : String) : (pct agg col).length = agg.length := by
  simp [pct, pctOf_length, cum_length]

theorem cum_ne_nil (agg : List AggRow) (col : String) (hne : agg ≠ []) : cum agg col ≠ [] := by
  intro h
  have := cum_length agg col
  rw [h] at this
  exact hne (List.length_eq_zero.mp this.symm)

end Pareto

namespace Scenario

theorem Row.get_set_same (r : Row) (m : String) (v : Option ℚ) (hm : m ∈ metrics) :
    (r.set m v).get m = v := by
  simp only [metrics, List.mem_cons, List.mem_singleton, List.not_mem_nil, or_false] at hm
  rcases hm with rfl | rfl | rfl | rfl <;> simp [Row.get, Row.set]

theorem Row.get_set_other (r : Row) (m m' : String) (v : Option ℚ) (h : m' ≠ m) :
    (r.set m v).get m' = r.get m' := by
  unfold Row.set
  split_ifs with h1 h2 h3 h4
  · subst h1; simp [Row.get, h]
  · subst h2; simp only [Row.get, h, if_false]
  · subst h3; simp only [Row.get, h, if_false]
  · subst h4; simp only [Row.get, h, if_false]
  · rfl

theorem foldl_max_le (b : ℚ) (vs : List ℚ) (v : ℚ) :
    vs.foldl (fun a x => if a < x then x else a) v ≤ b ↔ ∀ x ∈ v :: vs, x ≤ b := by
  induction vs generalizing v with
  | nil => simp
  | cons w ws ih =>
    simp only [List.foldl_cons, ih, List.mem_cons, forall_eq_or_imp]
    by_cases h : v < w
    · simp only [h, if_true]
      constructor
      · rintro ⟨hw, hws⟩
        exact ⟨le_trans (le_of_lt h) hw, hw, hws⟩
      · rintro ⟨_, hw, hws⟩
        exact ⟨hw, hws⟩
    · simp only [h, if_false]
      constructor
      · rintro ⟨hv, hws⟩
        exact ⟨hv, le_trans (not_lt.mp h) hv, hws⟩
      · rintro ⟨hv, _, hws⟩
        exact ⟨hv, hws⟩

theorem validVals_eq_nil (rows : List Row) (m : String) (h : validVals rows m = []) :
    ∀ r ∈ rows, r.get m = none := by
  intro r hr
  cases hg : r.get m with
  | none => rfl
  | some x =>
    have : x ∈ validVals rows m := by
      simp only [validVals, List.mem_filterMap, List.mem_map, id]
      exact ⟨some x, ⟨r, hr, hg⟩, rfl⟩
    rw [h] at this
    exact absurd this (List.not_mem_nil _)

/-- A metric that is not ratio-like is never rescaled. -/
theorem scaleMetric_of_not_ratio (rows : List Row) (m : String)
    (hm : ¬ (m = "Net Margins" ∨ m = "Net Revenue Retention")) : scaleMetric rows m = rows := by
  unfold scaleMetric
  split
  · rfl
  · simp [hm]

/-- The step for `m` leaves the other columns alone. -/
theorem scaleMetric_get_other (rows : List Row) (m m' : String) (h : m' ≠ m) :
    (scaleMetric rows m).map (fun r => r.get m') = rows.map (fun r => r.get m') := by
  unfold scaleMetric
  split
  · rfl
  · dsimp only
    split_ifs
    · rw [List.map_map]
      apply List.map_congr_left
      intro r _
      simp only [Function.comp]
      cases hg : r.get m with
      | none => rfl
      | some x => exact Row.get_set_other r m m' _ h
    · rfl

theorem validVals_congr (rows rows' : List Row) (m : String)
    (h : rows'.map (fun r => r.get m) = rows.map (fun r => r.get m)) :
    validVals rows' m = validVals rows m := by
  unfold validVals
  rw [h]

/-- The step for a ratio-like `m` whose valid values are all at most 5. -/
theorem scaleMetric_get_small (rows : List Row) (m : String)
    (hm : m = "Net Margins" ∨ m = "Net Revenue Retention")
    (hsmall : ∀ x ∈ validVals rows m, x ≤ 5) :
    (scaleMetric rows m).map (fun r => r.get m) =
      rows.map (fun r => (r.get m).map (fun x => x * 100)) := by
  have hmem : m ∈ metrics := by
    rcases hm with rfl | rfl <;> simp [metrics]
  unfold scaleMetric
  split
  · rename_i hnil
    apply List.map_congr_left
    intro r hr
    rw [validVals_eq_nil rows m hnil r hr]
    rfl
  · rename_i v vs hcons
    dsimp only
    have hmax : vs.foldl (fun a x => if a < x then x else a) v ≤ 5 := by
      rw [foldl_max_le]
      rw [hcons] at hsmall
      exact hsmall
    rw [if_pos ⟨hm, hmax⟩, List.map_map]
    apply List.map_congr_left
    intro r _
    simp only [Function.comp]
    cases hg : r.get m with
    | none => simp [hg]
    | some x => simp [Row.get_set_same r m _ hmem]

/-- The step for `m` when one valid value exceeds 5. -/
theorem scaleMetric_of_large (rows : List Row) (m : String)
    (hlarge : ∃ x ∈ validVals rows m, 5 < x) : scaleMetric rows m = rows := by
  unfold scaleMetric
  split
  · rfl
  · rename_i v vs hcons
    dsimp only
    have hmax : ¬ vs.foldl (fun a x => if a < x then x else a) v ≤ 5 := by
      rw [foldl_max_le]
      intro hall
      obtain ⟨x, hx, h5⟩ := hlarge
      rw [hcons] at hx
      exact absurd (hall x hx) (not_le.mpr h5)
    rw [if_neg (fun h => hmax h.2)]

theorem scale_eq (rows : List Row) :
    scale rows = scaleMetric (scaleMetric rows "Net Margins") "Net Revenue Retention" := by
  simp only [scale, metrics, List.foldl_cons, List.foldl_nil]
  rw [scaleMetric_of_not_ratio rows "Gross Revenue" (by decide),
    scaleMetric_of_not_ratio _ "CAC Payback" (by decide)]

/-- The scale step on the column of `m`, in terms of the step for `m` alone. -/
theorem scale_get (rows : List Row) (m : String) :
    (scale rows).map (fun r => r.get m) = (scaleMetric rows m).map (fun r => r.get m) := by
  rw [scale_eq]
  by_cases h1 : m = "Net Margins"
  · subst h1
    rw [scaleMetric_get_other _ "Net Revenue Retention" "Net Margins" (by decide)]
  · by_cases h2 : m = "Net Revenue Retention"
    · subst h2
      have hcol := scaleMetric_get_other rows "Net Margins" "Net Revenue Retention" (by decide)
      have hv := validVals_congr rows (scaleMetric rows "Net Margins") "Net Revenue Retention" hcol
      by_cases hsmall : ∀ x ∈ validVals rows "Net Revenue Retention", x ≤ 5
      · rw [scaleMetric_get_small _ _ (Or.inr rfl) (by rw [hv]; exact hsmall),
          scaleMetric_get_small _ _ (Or.inr rfl) hsmall]
        have := congrArg (List.map (fun o : Option ℚ => o.map (fun x => x * 100))) hcol
        simpa [List.map_map, Function.comp] using this
      · have hlarge : ∃ x ∈ validVals rows "Net Revenue Retention", 5 < x := by
          push_neg at hsmall
          exact hsmall
        rw [scaleMetric_of_large _ _ (by rw [hv]; exact hlarge),
          scaleMetric_of_large _ _ hlarge, hcol]
    · rw [scaleMetric_get_other _ _ m h2, scaleMetric_get_other _ _ m h1,
        scaleMetric_of_not_ratio rows m (by simp [h1, h2])]

theorem scale_get_small (rows : List Row) (m : String)
    (hm : m = "Net Margins" ∨ m = "Net Revenue Retention")
    (hsmall : ∀ x ∈ validVals rows m, x ≤ 5) :
    (scale rows).map (fun r => r.get m) =
      rows.map (fun r => (r.get m).map (fun x => x * 100)) := by
  rw [scale_get, scaleMetric_get_small rows m hm hsmall]

theorem scale_get_large (rows : List Row) (m : String)
    (hlarge : ∃ x ∈ validVals rows m, 5 < x) :
    (scale rows).map (fun r => r.get m) = rows.map (fun r => r.get m) := by
  rw [scale_get, scaleMetric_of_large rows m hlarge]

theorem scale_get_not_ratio (rows : List Row) (m : String)
    (hm : ¬ (m = "Net Margins" ∨ m = "Net Revenue Retention")) :
    (scale rows).map (fun r => r.get m) = rows.map (fun r => r.get m) := by
  rw [scale_get, scaleMetric_of_not_ratio rows m hm]

theorem scale_length (rows : List Row) : (scale rows).length = rows.length := by
  have := congrArg List.length (scale_get rows "Gross Revenue")
  rw [scaleMetric_of_not_ratio rows "Gross Revenue" (by decide)] at this
  simpa using this

/-- The scale step keeps `NaN` where it was and numbers where they were. -/
theorem scale_get_isNone (rows : List Row) (m : String) :
    (scale rows).map (fun r => (r.get m).isNone) = rows.map (fun r => (r.get m).isNone) := by
  by_cases hm : m = "Net Margins" ∨ m = "Net Revenue Retention"
  · by_cases hsmall : ∀ x ∈ validVals rows m, x ≤ 5
    · have := congrArg (List.map Option.isNone) (scale_get_small rows m hm hsmall)
      simp only [List.map_map] at this
      rw [show (fun r : Row => (r.get m).isNone) = Option.isNone ∘ (fun r => r.get m) from rfl,
        this]
      apply List.map_congr_left
      intro r _
      simp only [Function.comp]
      cases hg : r.get m <;> rfl
    · have hlarge : ∃ x ∈ validVals rows m, 5 < x := by
        push_neg at hsmall
        exact hsmall
      have := congrArg (List.map Option.isNone) (scale_get_large rows m hlarge)
      simpa [List.map_map, Function.comp] using this
  · have := congrArg (List.map Option.isNone) (scale_get_not_ratio rows m hm)
    simpa [List.map_map, Function.comp] using this

theorem filtered_perm (data : List Row) (scenario : String) :
    (filtered data scenario).Perm (data.filter (fun d => d.Scenario == some scenario)) :=
  JS.sort_perm _ _

theorem filtered_length (data : List Row) (scenario : String) :
    (filtered data scenario).length =
      (data.filter (fun d => d.Scenario == some scenario)).length :=
  (filtered_perm data scenario).length_eq

theorem mem_filtered (data : List Row) (scenario : String) (d : Row) :
    d ∈ filtered data scenario ↔ d ∈ data ∧ d.Scenario = some scenario := by
  rw [(filtered_perm data scenario).mem_iff]
  simp

/-- On rows whose `QuarterDate` is `null` or a valid date the comparator is
the difference of the sort keys. -/
theorem byQuarterDate_le (a b : Row) (ha : sortKey a ≠ none) (hb : sortKey b ≠ none) :
    (byQuarterDate a b).getD 0 ≤ 0 ↔ (sortKey a).getD 0 ≤ (sortKey b).getD 0 := by
  unfold byQuarterDate
  cases hka : sortKey a with
  | none => exact absurd hka ha
  | some x =>
    cases hkb : sortKey b with
    | none => exact absurd hkb hb
    | some y =>
      simp only [Option.getD_some]
      constructor <;> intro h <;> linarith

theorem sortKey_ne_none (d : Row) (h : d.QuarterDate ≠ some { time := none }) :
    sortKey d ≠ none := by
  unfold sortKey
  cases hq : d.QuarterDate with
  | none => simp
  | some date =>
    cases date with
    | mk time =>
      cases time with
      | none => exact absurd hq h
      | some t => simp

theorem filtered_pairwise (data : List Row) (scenario : String)
    (hvalid : ∀ d ∈ data, d.Scenario = some scenario → d.QuarterDate ≠ some { time := none }) :
    (filtered data scenario).Pairwise
      (fun a b => (sortKey a).getD 0 ≤ (sortKey b).getD 0) := by
  apply JS.sort_pairwise
  intro a ha b hb
  simp only [List.mem_filter, beq_iff_eq] at ha hb
  exact byQuarterDate_le a b (sortKey_ne_none a (hvalid a ha.1 ha.2))
    (sortKey_ne_none b (hvalid b hb.1 hb.2))

theorem point_ok (metric : String) (d : Row) (h : d.QuarterDate ≠ some { time := none }) :
    ∃ p, point metric d = .ok p ∧ p.value = d.get metric := by
  unfold point
  cases hq : d.QuarterDate with
  | none =>
    refine ⟨_, rfl, ?_⟩
    cases d.get metric <;> rfl
  | some date =>
    cases date with
    | mk time =>
      cases time with
      | none => exact absurd hq h
      | some t =>
        refine ⟨_, rfl, ?_⟩
        cases d.get metric <;> rfl

theorem point_error (metric : String) (d : Row) (h : d.QuarterDate = some { time := none }) :
    point metric d = .error JSError.rangeError := by
  unfold point
  rw [h]

theorem point_error_eq (metric : String) (d : Row) (e : JSError) (h : point metric d = .error e) :
    e = JSError.rangeError ∧ d.QuarterDate = some { time := none } := by
  by_cases hq : d.QuarterDate = some { time := none }
  · rw [point_error metric d hq] at h
    cases h
    exact ⟨rfl, hq⟩
  · obtain ⟨p, hp, _⟩ := point_ok metric d hq
    rw [hp] at h
    cases h

/-- The series is built when no row carries an invalid date, one point per row
in the order of the rows. -/
theorem values_ok (rows : List Row) (metric : String)
    (h : ∀ d ∈ rows, d.QuarterDate ≠ some { time := none }) :
    ∃ pts, values rows metric = .ok pts ∧
      pts.map (fun p => p.value) = rows.map (fun d => d.get metric) := by
  induction rows with
  | nil => exact ⟨[], rfl, rfl⟩
  | cons d ds ih =>
    obtain ⟨p, hp, hv⟩ := point_ok metric d (h d (List.mem_cons_self _ _))
    obtain ⟨ps, hps, hvs⟩ := ih (fun x hx => h x (List.mem_cons_of_mem _ hx))
    refine ⟨p :: ps, ?_, ?_⟩
    · unfold values at hps ⊢
      rw [List.mapM_cons, hp, hps]
      rfl
    · simp [hv, hvs]

/-- The series is not built when a row carries an invalid date. -/
theorem values_error (rows : List Row) (metric : String)
    (h : ∃ d ∈ rows, d.QuarterDate = some { time := none }) :
    values rows metric = .error JSError.rangeError := by
  induction rows with
  | nil =>
    obtain ⟨d, hd, _⟩ := h
    exact absurd hd (List.not_mem_nil _)
  | cons d ds ih =>
    unfold values at ih ⊢
    rw [List.mapM_cons]
    by_cases hq : d.QuarterDate = some { time := none }
    · rw [point_error metric d hq]
      rfl
    · obtain ⟨p, hp, _⟩ := point_ok metric d hq
      have hds : ∃ x ∈ ds, x.QuarterDate = some { time := none } := by
        obtain ⟨x, hx, hxq⟩ := h
        rcases List.mem_cons.mp hx with rfl | hx
        · exact absurd hxq hq
        · exact ⟨x, hx, hxq⟩
      rw [hp, ih hds]
      rfl

end Scenario

namespace JS

theorem makeDay_quarter (y : ℤ) (n : ℤ) (hn : 1 ≤ n ∧ n ≤ 4) :
    makeDay y ((n - 1) * 3) = Calendar.daysFromCivil y ((n - 1) * 3 + 1) 1 := by
  obtain ⟨h1, h4⟩ := hn
  have hcases : n = 1 ∨ n = 2 ∨ n = 3 ∨ n = 4 := by omega
  rcases hcases with rfl | rfl | rfl | rfl
  all_goals
    simp only [makeDay, dayFromYear, inLeapYear, monthStart, Calendar.daysFromCivil]
    norm_num
    omega

theorem isDigit_toNat (c : Char) (h : c.isDigit = true) : 48 ≤ c.toNat ∧ c.toNat ≤ 57 := by
  simp only [Char.isDigit, Bool.and_eq_true, decide_eq_true_eq] at h
  exact ⟨h.1, h.2⟩

theorem ne_of_isDigit (c d : Char) (h : c.isDigit = true) (hd : d.isDigit = false) : c ≠ d := by
  rintro rfl
  rw [h] at hd
  exact Bool.noConfusion hd

theorem daysFromCivil_quarter_bounds (y n : ℤ) (hy : 0 ≤ y ∧ y ≤ 9999) (hn : 1 ≤ n ∧ n ≤ 4) :
    -720000 ≤ Calendar.daysFromCivil y ((n - 1) * 3 + 1) 1 ∧
      Calendar.daysFromCivil y ((n - 1) * 3 + 1) 1 ≤ 2940000 := by
  obtain ⟨h1, h4⟩ := hn
  have hcases : n = 1 ∨ n = 2 ∨ n = 3 ∨ n = 4 := by omega
  rcases hcases with rfl | rfl | rfl | rfl
  all_goals
    simp only [Calendar.daysFromCivil]
    norm_num
    omega

theorem dateUTC_quarter (y n : ℤ) (hy : 100 ≤ y ∧ y ≤ 9999) (hn : 1 ≤ n ∧ n ≤ 4) :
    dateUTC y ((n - 1) * 3) = some (Calendar.utcMidnight y ((n - 1) * 3 + 1) 1) := by
  have hyr : ¬ (0 ≤ y ∧ y ≤ 99) := by omega
  have hb := daysFromCivil_quarter_bounds y n ⟨by omega, hy.2⟩ hn
  unfold dateUTC
  rw [if_neg hyr]
  dsimp only
  rw [makeDay_quarter y n hn]
  unfold timeClip Calendar.utcMidnight msPerDay
  rw [if_pos]
  constructor <;> omega

theorem timeClip_utcMidnight_quarter (y n : ℤ) (hy : 0 ≤ y ∧ y ≤ 9999) (hn : 1 ≤ n ∧ n ≤ 4) :
    timeClip (Calendar.utcMidnight y ((n - 1) * 3 + 1) 1) =
      some (Calendar.utcMidnight y ((n - 1) * 3 + 1) 1) := by
  have hb := daysFromCivil_quarter_bounds y n hy hn
  unfold timeClip Calendar.utcMidnight
  rw [if_pos]
  constructor <;> omega

end JS

namespace Scenario

theorem digit_ne_space (c : Char) (h : c.isDigit = true) : (c == ' ') = false := by
  have := JS.ne_of_isDigit c ' ' h (by decide)
  simpa using this

theorem digit_ne_q (c : Char) (h : c.isDigit = true) : (c == 'q') = false := by
  have := JS.ne_of_isDigit c 'q' h (by decide)
  simpa using this

/-- The normalisation `q.replace(' ', '').replace('q', 'Q')` of a label
`YYYY`, optional separator, `Q` or `q`, one digit. -/
theorem normalise_label (y1 y2 y3 y4 : Char) (sep : List Char) (q n : Char)
    (h1 : y1.isDigit = true) (h2 : y2.isDigit = true) (h3 : y3.isDigit = true)
    (h4 : y4.isDigit = true) (hsep : sep = [] ∨ sep = ['-'] ∨ sep = [' '])
    (hq : q = 'Q' ∨ q = 'q') (hn : n.isDigit = true) :
    JS.replaceFirst 'q' ['Q'] (JS.replaceFirst ' ' [] ([y1, y2, y3, y4] ++ sep ++ [q, n])) =
      [y1, y2, y3, y4] ++ (if sep = ['-'] then ['-'] else []) ++ ['Q', n] := by
  have s1 := digit_ne_space y1 h1
  have s2 := digit_ne_space y2 h2
  have s3 := digit_ne_space y3 h3
  have s4 := digit_ne_space y4 h4
  have sn := digit_ne_space n hn
  have q1 := digit_ne_q y1 h1
  have q2 := digit_ne_q y2 h2
  have q3 := digit_ne_q y3 h3
  have q4 := digit_ne_q y4 h4
  have qn := digit_ne_q n hn
  rcases hsep with rfl | rfl | rfl <;> rcases hq with rfl | rfl <;>
    simp [JS.replaceFirst, s1, s2, s3, s4, sn, q1, q2, q3, q4, qn]

theorem search_label (y1 y2 y3 y4 : Char) (sep : List Char) (n : Char)
    (h1 : y1.isDigit = true) (h2 : y2.isDigit = true) (h3 : y3.isDigit = true)
    (h4 : y4.isDigit = true) (hsep : sep = [] ∨ sep = ['-']) (hn : n.isDigit = true) :
    search ([y1, y2, y3, y4] ++ sep ++ ['Q', n]) = some ([y1, y2, y3, y4], n) := by
  rcases hsep with rfl | rfl <;>
    simp [search, matchHere, matchTail, h1, h2, h3, h4, hn]

theorem quarterToDate_label (dateParse : String → Option ℤ) (y1 y2 y3 y4 : Char)
    (sep : List Char) (q n : Char)
    (h1 : y1.isDigit = true) (h2 : y2.isDigit = true) (h3 : y3.isDigit = true)
    (h4 : y4.isDigit = true) (hsep : sep = [] ∨ sep = ['-'] ∨ sep = [' '])
    (hq : q = 'Q' ∨ q = 'q') (hn : n.isDigit = true) :
    quarterToDate dateParse (some (String.mk ([y1, y2, y3, y4] ++ sep ++ [q, n]))) =
      some { time := (JS.dateUTC (JS.digitsValue [y1, y2, y3, y4] : ℤ)
        (((JS.digitsValue [n] : ℤ) - 1) * 3)).bind JS.timeClip } := by
  have hne : String.mk ([y1, y2, y3, y4] ++ sep ++ [q, n]) ≠ "" := by
    intro h
    have := congrArg String.length h
    simp at this
  have hnorm := normalise_label y1 y2 y3 y4 sep q n h1 h2 h3 h4 hsep hq hn
  have hsearch := search_label y1 y2 y3 y4 (if sep = ['-'] then ['-'] else []) n h1 h2 h3 h4
    (by split_ifs <;> simp) hn
  unfold quarterToDate
  simp only [if_neg hne]
  rw [show (String.mk ([y1, y2, y3, y4] ++ sep ++ [q, n])).toList =
    [y1, y2, y3, y4] ++ sep ++ [q, n] from rfl, hnorm, hsearch]

theorem digitsValue_four (y1 y2 y3 y4 : Char)
    (h1 : y1.isDigit = true) (h2 : y2.isDigit = true) (h3 : y3.isDigit = true)
    (h4 : y4.isDigit = true) : JS.digitsValue [y1, y2, y3, y4] ≤ 9999 := by
  have a1 := JS.isDigit_toNat y1 h1
  have a2 := JS.isDigit_toNat y2 h2
  have a3 := JS.isDigit_toNat y3 h3
  have a4 := JS.isDigit_toNat y4 h4
  simp only [JS.digitsValue, List.foldl_cons, List.foldl_nil]
  omega

end Scenario

namespace JS

theorem lookup_map_self {β : Type} (l : List String) (f : String → β) (k : String) :
    (l.map (fun c => (c, f c))).lookup k = if k ∈ l then some (f k) else none := by
  induction l with
  | nil => rfl
  | cons c cs ih =>
    simp only [List.map_cons, List.lookup_cons, List.mem_cons]
    by_cases h : k = c
    · subst h
      simp
    · have hb : (k == c) = false := by simpa using h
      simp [hb, ih, h]

theorem setAdd_mem (acc : List String) (s k : String) :
    k ∈ setAdd acc s ↔ k ∈ acc ∨ k = s := by
  unfold setAdd
  split_ifs with h
  · constructor
    · exact fun hk => Or.inl hk
    · rintro (hk | rfl)
      · exact hk
      · exact h
  · simp

theorem foldl_setAdd_mem (l acc : List String) (k : String) :
    k ∈ l.foldl setAdd acc ↔ k ∈ acc ∨ k ∈ l := by
  induction l generalizing acc with
  | nil => simp
  | cons x xs ih =>
    simp only [List.foldl_cons, ih, setAdd_mem, List.mem_cons]
    tauto

theorem mem_firstOccurrences (l : List String) (k : String) :
    k ∈ firstOccurrences l ↔ k ∈ l := by
  simp [firstOccurrences, foldl_setAdd_mem]

theorem foldl_setAdd_nodup (l acc : List String) (h : acc.Nodup) :
    (l.foldl setAdd acc).Nodup := by
  induction l generalizing acc with
  | nil => exact h
  | cons x xs ih =>
    apply ih
    unfold setAdd
    split_ifs with hx
    · exact h
    · refine List.Nodup.append h (List.nodup_singleton x) ?_
      intro a ha hax
      rw [List.mem_singleton.mp hax] at ha
      exact hx ha

theorem firstOccurrences_nodup (l : List String) : (firstOccurrences l).Nodup :=
  foldl_setAdd_nodup l [] List.nodup_nil

theorem firstOccurrences_append_singleton (l : List String) (k : String) :
    firstOccurrences (l ++ [k]) = setAdd (firstOccurrences l) k := by
  simp [firstOccurrences, List.foldl_append]

theorem insertIndexed_perm {β : Type} (p : Nat × String × β) (l : List (Nat × String × β)) :
    (insertIndexed p l).Perm (p :: l) := by
  induction l with
  | nil => exact List.Perm.refl _
  | cons q qs ih =>
    unfold insertIndexed
    split
    · exact List.Perm.refl _
    · exact (List.Perm.cons q ih).trans (List.Perm.swap p q qs)

theorem foldr_insertIndexed_perm {β : Type} (l : List (Nat × String × β)) :
    (l.foldr insertIndexed []).Perm l := by
  induction l with
  | nil => exact List.Perm.refl _
  | cons p ps ih =>
    exact (insertIndexed_perm p _).trans (List.Perm.cons p ih)

theorem indexed_map_snd {β : Type} (own : List (String × β)) :
    (own.filterMap (fun p => (arrayIndex p.1).map (fun n => (n, p.1, p.2)))).map (fun q => q.2) =
      own.filter (fun p => (arrayIndex p.1).isSome) := by
  induction own with
  | nil => rfl
  | cons p ps ih =>
    cases h : arrayIndex p.1 with
    | none => simp [List.filterMap_cons, List.filter_cons, h, ih]
    | some n => simp [List.filterMap_cons, List.filter_cons, h, ih]

/-- The list of `Object.keys` holds every own property once. -/
theorem ownPropertyOrder_perm {β : Type} (own : List (String × β)) :
    (ownPropertyOrder own).Perm own := by
  unfold ownPropertyOrder
  have h1 := ((foldr_insertIndexed_perm
    (own.filterMap (fun p => (arrayIndex p.1).map (fun n => (n, p.1, p.2))))).map
      (fun q => q.2))
  rw [indexed_map_snd] at h1
  have h2 : (own.filter (fun p => (arrayIndex p.1).isNone)) =
      own.filter (fun p => !(arrayIndex p.1).isSome) := by
    congr 1
    funext p
    cases arrayIndex p.1 <;> rfl
  rw [h2]
  exact (h1.append_right _).trans (List.filter_append_perm _ own)

/-- Without array-index keys `Object.keys` follows the creation order. -/
theorem ownPropertyOrder_of_no_index {β : Type} (own : List (String × β))
    (h : ∀ p ∈ own, arrayIndex p.1 = none) : ownPropertyOrder own = own := by
  unfold ownPropertyOrder
  have h1 : own.filterMap (fun p => (arrayIndex p.1).map (fun n => (n, p.1, p.2))) = [] := by
    rw [List.filterMap_eq_nil_iff]
    intro p hp
    simp [h p hp]
  have h2 : own.filter (fun p => (arrayIndex p.1).isNone) = own := by
    rw [List.filter_eq_self]
    intro p hp
    simp [h p hp]
  simp [h1, h2]

end JS

namespace Pareto

theorem recordsOf_append (pre : List Record) (d : Record) (k : String) :
    recordsOf (pre ++ [d]) k = if keyOf d = k then recordsOf pre k ++ [d] else recordsOf pre k := by
  unfold recordsOf
  rw [List.filter_append]
  by_cases h : keyOf d = k <;> simp [List.filter_cons, h]

theorem groupOf_append_other (pre : List Record) (d : Record) (k : String) (h : keyOf d ≠ k) :
    groupOf (pre ++ [d]) k = groupOf pre k := by
  simp only [groupOf, recordsOf_append, if_neg h]

theorem readNum_groupOf (pre : List Record) (k c : String) (hc : c ∈ impactCols) :
    readNum [] (groupOf pre k).sums c =
      ((recordsOf pre k).map (fun d => contribution [] d c)).sum := by
  simp only [readNum, groupOf, JS.lookup_map_self, if_pos hc, Option.orElse, Option.getD_some]

theorem groupOf_append_same (pre : List Record) (d : Record) :
    groupOf (pre ++ [d]) (keyOf d) =
      { count := (groupOf pre (keyOf d)).count + 1
        sums := addRecord [] (groupOf pre (keyOf d)).sums d } := by
  have hrec := recordsOf_append pre d (keyOf d)
  rw [if_pos rfl] at hrec
  simp only [groupOf, hrec, List.length_append, List.length_singleton, addRecord, Group.mk.injEq,
    true_and]
  apply List.map_congr_left
  intro c hc
  have := readNum_groupOf pre (keyOf d) c hc
  simp only [groupOf] at this
  simp [this]

theorem recordsOf_eq_nil (pre : List Record) (k : String) (h : k ∉ pre.map keyOf) :
    recordsOf pre k = [] := by
  unfold recordsOf
  rw [List.filter_eq_nil_iff]
  intro d hd hk
  simp only [beq_iff_eq] at hk
  exact h (List.mem_map.mpr ⟨d, hd, hk⟩)

theorem groupOf_fresh (pre : List Record) (d : Record) (h : keyOf d ∉ pre.map keyOf) :
    groupOf (pre ++ [d]) (keyOf d) = { count := 1, sums := addRecord [] [] d } := by
  have hrec := recordsOf_append pre d (keyOf d)
  rw [if_pos rfl, recordsOf_eq_nil pre _ h] at hrec
  simp only [groupOf, hrec, addRecord, readNum]
  simp

theorem mem_keysOf (data : List Record) (k : String) :
    k ∈ keysOf data ↔ k ∈ data.map keyOf ∧ k ∉ JS.protoFunctionNames := by
  simp only [keysOf, JS.mem_firstOccurrences, List.mem_filter, decide_eq_true_eq]

theorem keysOf_append (pre : List Record) (d : Record) :
    keysOf (pre ++ [d]) =
      if keyOf d ∈ JS.protoFunctionNames then keysOf pre else JS.setAdd (keysOf pre) (keyOf d) := by
  unfold keysOf
  rw [List.map_append, List.filter_append]
  by_cases h : keyOf d ∈ JS.protoFunctionNames
  · simp [List.filter_cons, h]
  · simp only [List.map_cons, List.map_nil, List.filter_cons, h, not_false_eq_true,
      decide_True, if_true, List.filter_nil, if_false, JS.firstOccurrences_append_singleton]

/-- One pass of the loop body takes the closed form to the closed form. -/
theorem step_ownOf (pre : List Record) (d : Record) (hd : keyOf d ≠ "__proto__") :
    step { own := ownOf pre, proto := [] } d = .ok { own := ownOf (pre ++ [d]), proto := [] } := by
  unfold step
  simp only [ownOf, JS.lookup_map_self]
  by_cases hmem : keyOf d ∈ keysOf pre
  · have hnp : keyOf d ∉ JS.protoFunctionNames := ((mem_keysOf pre _).mp hmem).2
    have hkeys : keysOf (pre ++ [d]) = keysOf pre := by
      rw [keysOf_append, if_neg hnp, JS.setAdd, if_pos hmem]
    simp only [if_pos hmem, hkeys, List.map_map]
    congr 2
    apply List.map_congr_left
    intro k _
    simp only [Function.comp]
    by_cases hk : k = keyOf d
    · subst hk
      simp only [if_true, groupOf_append_same]
    · rw [if_neg hk, groupOf_append_other pre d k (fun h => hk h.symm)]
  · simp only [if_neg hmem, if_neg hd]
    by_cases hp : keyOf d ∈ JS.protoFunctionNames
    · have hkeys : keysOf (pre ++ [d]) = keysOf pre := by
        rw [keysOf_append, if_pos hp]
      simp only [if_pos hp, hkeys]
      congr 2
      apply List.map_congr_left
      intro k hk
      have hne : keyOf d ≠ k := fun h => hmem (h ▸ hk)
      rw [groupOf_append_other pre d k hne]
    · have hkeys : keysOf (pre ++ [d]) = keysOf pre ++ [keyOf d] := by
        rw [keysOf_append, if_neg hp, JS.setAdd, if_neg hmem]
      have hfresh : keyOf d ∉ pre.map keyOf := fun h => hmem ((mem_keysOf pre _).mpr ⟨h, hp⟩)
      have hzero : ¬ readNum [] [] (keyOf d) ≠ 0 := by simp [readNum]
      simp only [if_neg hp, if_neg hzero, hkeys, List.map_append, List.map_cons, List.map_nil,
        groupOf_fresh pre d hfresh]
      congr 3
      apply List.map_congr_left
      intro k hk
      have hne : keyOf d ≠ k := fun h => hmem (h ▸ hk)
      rw [groupOf_append_other pre d k hne]

/-- The accumulator in closed form, when no record has the key `__proto__`. -/
theorem byPain_eq (data : List Record) (h : ∀ d ∈ data, keyOf d ≠ "__proto__") :
    byPain data = .ok { own := ownOf data, proto := [] } := by
  induction data using List.reverseRecOn with
  | nil => rfl
  | append_singleton pre d ih =>
    have ih1 := ih (fun x hx => h x (List.mem_append_left _ hx))
    unfold byPain at ih1 ⊢
    rw [List.foldlM_append, ih1]
    simp only [List.foldlM_cons, List.foldlM_nil, bind, Except.bind, pure, Except.pure]
    rw [step_ownOf pre d (h d (by simp))]

theorem agg_eq (data : List Record) (h : ∀ d ∈ data, keyOf d ≠ "__proto__") :
    agg data = .ok ((JS.ownPropertyOrder (ownOf data)).map (aggRow [])) := by
  unfold agg
  rw [byPain_eq data h]
  rfl

theorem sum_contribution (l : List Record) (c : String) :
    (l.map (fun d => contribution [] d c)).sum = (l.filterMap (fun d => parsed [] d c)).sum := by
  induction l with
  | nil => rfl
  | cons d ds ih =>
    rw [List.map_cons, List.sum_cons, ih, List.filterMap_cons]
    unfold contribution
    cases parsed [] d c with
    | none => simp
    | some v => simp

/-- The value of a row of `agg` for an impact column, in closed form. -/
theorem aggRow_num (data : List Record) (k c : String) (hc : c ∈ impactCols) :
    (aggRow [] (k, groupOf data k)).num c =
      (validValues data k c).sum / ((recordsOf data k).length : ℚ) := by
  simp only [AggRow.num, aggRow, JS.lookup_map_self, if_pos hc, Option.getD_some,
    readNum_groupOf data k c hc, sum_contribution, validValues]
  rfl

/-- The keys of the rows of `agg`, in the order of `Object.keys`. -/
theorem agg_keys (data : List Record) (h : ∀ d ∈ data, keyOf d ≠ "__proto__") :
    (agg data).map (fun rows => rows.map (fun r => r.painPoints)) =
      .ok ((JS.ownPropertyOrder (ownOf data)).map (fun p => p.1)) := by
  rw [agg_eq data h]
  simp only [Except.map, List.map_map]
  rfl

theorem keysOf_of_no_function_name (data : List Record)
    (h : ∀ d ∈ data, keyOf d ∉ JS.protoFunctionNames) :
    keysOf data = JS.firstOccurrences (data.map keyOf) := by
  unfold keysOf
  congr 1
  rw [List.filter_eq_self]
  intro k hk
  obtain ⟨d, hd, rfl⟩ := List.mem_map.mp hk
  simpa using h d hd

theorem mem_agg_rows (data : List Record) (row : AggRow) :
    row ∈ (JS.ownPropertyOrder (ownOf data)).map (aggRow []) ↔
      ∃ k, k ∈ keysOf data ∧ row = aggRow [] (k, groupOf data k) := by
  rw [List.mem_map]
  constructor
  · rintro ⟨p, hp, rfl⟩
    rw [(JS.ownPropertyOrder_perm (ownOf data)).mem_iff] at hp
    simp only [ownOf, List.mem_map] at hp
    obtain ⟨k, hk, rfl⟩ := hp
    exact ⟨k, hk, rfl⟩
  · rintro ⟨k, hk, rfl⟩
    refine ⟨(k, groupOf data k), ?_, rfl⟩
    rw [(JS.ownPropertyOrder_perm (ownOf data)).mem_iff]
    exact List.mem_map.mpr ⟨k, hk, rfl⟩

end Pareto

namespace Scenario

/-- The helper returns `null` for a missing or empty label and for no other. -/
theorem quarterToDate_eq_none_iff (dateParse : String → Option ℤ) (q : Option String) :
    quarterToDate dateParse q = none ↔ q = none ∨ q = some "" := by
  cases q with
  | none => simp [quarterToDate]
  | some s =>
    unfold quarterToDate
    by_cases h : s = ""
    · simp [h]
    · constructor
      · intro hq
        simp only [if_neg h] at hq
        split at hq <;> cases hq
      · rintro (hq | hq)
        · cases hq
        · exact absurd (Option.some.inj hq) h

/-- A label without a quarter in it goes to the host date parser, and the
result is a date object whatever the parser returns. -/
theorem quarterToDate_fallback (dateParse : String → Option ℤ) (q : String) (hne : q ≠ "")
    (hs : search (JS.replaceFirst 'q' ['Q'] (JS.replaceFirst ' ' [] q.toList)) = none) :
    quarterToDate dateParse (some q) = some { time := (dateParse q).bind JS.timeClip } := by
  unfold quarterToDate
  simp only [if_neg hne, hs]

theorem Row.set_fields (r : Row) (m : String) (v : Option ℚ) :
    (r.set m v).Scenario = r.Scenario ∧ (r.set m v).Quarter = r.Quarter ∧
      (r.set m v).Quarters = r.Quarters ∧ (r.set m v).QuarterDate = r.QuarterDate := by
  unfold Row.set
  split_ifs <;> exact ⟨rfl, rfl, rfl, rfl⟩

/-- The scale step for one metric changes no text column and no date. -/
theorem scaleMetric_fields (rows : List Row) (m : String) :
    (scaleMetric rows m).map (fun r => (r.Scenario, r.Quarter, r.Quarters, r.QuarterDate)) =
      rows.map (fun r => (r.Scenario, r.Quarter, r.Quarters, r.QuarterDate)) := by
  unfold scaleMetric
  split
  · rfl
  · dsimp only
    split_ifs
    · rw [List.map_map]
      apply List.map_congr_left
      intro r _
      simp only [Function.comp]
      cases hg : r.get m with
      | none => rfl
      | some x =>
        obtain ⟨h1, h2, h3, h4⟩ := Row.set_fields r m (some (x * 100))
        simp only [h1, h2, h3, h4]
    · rfl

theorem foldl_scaleMetric_fields (ms : List String) (rows : List Row) :
    (ms.foldl scaleMetric rows).map (fun r => (r.Scenario, r.Quarter, r.Quarters, r.QuarterDate)) =
      rows.map (fun r => (r.Scenario, r.Quarter, r.Quarters, r.QuarterDate)) := by
  induction ms generalizing rows with
  | nil => rfl
  | cons m ms ih => rw [List.foldl_cons, ih, scaleMetric_fields]

/-- The scale step changes no text column and no date. -/
theorem scale_fields (rows : List Row) :
    (scale rows).map (fun r => (r.Scenario, r.Quarter, r.Quarters, r.QuarterDate)) =
      rows.map (fun r => (r.Scenario, r.Quarter, r.Quarters, r.QuarterDate)) :=
  foldl_scaleMetric_fields metrics rows

/-- A row with a given scenario and date exists after the scale step exactly
when one exists before it. -/
theorem exists_scale_iff (rows : List Row) (s : Option String) (q : Option JS.Date) :
    (∃ d ∈ scale rows, d.Scenario = s ∧ d.QuarterDate = q) ↔
      (∃ d ∈ rows, d.Scenario = s ∧ d.QuarterDate = q) := by
  have h := scale_fields rows
  have key : ∀ l : List Row, (∃ d ∈ l, d.Scenario = s ∧ d.QuarterDate = q) ↔
      ∃ t ∈ l.map (fun r => (r.Scenario, r.Quarter, r.Quarters, r.QuarterDate)),
        t.1 = s ∧ t.2.2.2 = q := by
    intro l
    simp only [List.mem_map, exists_exists_and_eq_and]
  rw [key, key, h]

theorem chartCell_nil (scenario : String) : chartCell [] scenario = .ok Result.noData := rfl

theorem chartCell_no_match (data : List Row) (scenario : String) (hne : data ≠ [])
    (h : ∀ d ∈ data, d.Scenario ≠ some scenario) : chartCell data scenario = .ok Result.noRows := by
  have hlen : data.length ≠ 0 := by simpa using hne
  have hf : (filtered data scenario).length = 0 := by
    rw [filtered_length, List.length_eq_zero, List.filter_eq_nil_iff]
    intro d hd
    simpa using h d hd
  simp only [chartCell, if_neg hlen, if_pos hf]

theorem filtered_length_ne_zero (data : List Row) (scenario : String)
    (h : ∃ d ∈ data, d.Scenario = some scenario) : (filtered data scenario).length ≠ 0 := by
  obtain ⟨d, hd, hs⟩ := h
  intro h0
  have : d ∈ filtered data scenario := (mem_filtered data scenario d).mpr ⟨hd, hs⟩
  rw [List.length_eq_zero.mp h0] at this
  exact absurd this (List.not_mem_nil _)

/-- The cell throws when a matching row carries an invalid date. -/
theorem chartCell_invalid (data : List Row) (scenario : String)
    (h : ∃ d ∈ data, d.Scenario = some scenario ∧ d.QuarterDate = some { time := none }) :
    chartCell data scenario = .error JSError.rangeError := by
  obtain ⟨d, hd, hs, hq⟩ := h
  have hlen : data.length ≠ 0 := by
    intro h0
    rw [List.length_eq_zero.mp h0] at hd
    exact absurd hd (List.not_mem_nil _)
  have hf := filtered_length_ne_zero data scenario ⟨d, hd, hs⟩
  have hv : ∀ m, values (filtered data scenario) m = .error JSError.rangeError :=
    fun m => values_error _ m ⟨d, (mem_filtered data scenario d).mpr ⟨hd, hs⟩, hq⟩
  simp only [chartCell, if_neg hlen, if_neg hf, metrics, List.mapM_cons, hv]
  rfl

/-- The cell returns one series per metric when the selection matches a row
and no matching row carries an invalid date. -/
theorem chartCell_valid (data : List Row) (scenario : String)
    (hmatch : ∃ d ∈ data, d.Scenario = some scenario)
    (hvalid : ∀ d ∈ data, d.Scenario = some scenario → d.QuarterDate ≠ some { time := none }) :
    ∃ series, chartCell data scenario = .ok (Result.charts series) ∧
      series.map (fun s => s.1) = metrics ∧
      ∀ s ∈ series, values (filtered data scenario) s.1 = .ok s.2 ∧
        s.2.map (fun p => p.value) = (filtered data scenario).map (fun d => d.get s.1) := by
  have hlen : data.length ≠ 0 := by
    obtain ⟨d, hd, _⟩ := hmatch
    intro h0
    rw [List.length_eq_zero.mp h0] at hd
    exact absurd hd (List.not_mem_nil _)
  have hf := filtered_length_ne_zero data scenario hmatch
  have hv : ∀ m, ∃ pts, values (filtered data scenario) m = .ok pts ∧
      pts.map (fun p => p.value) = (filtered data scenario).map (fun d => d.get m) :=
    fun m => values_ok _ m (fun d hd => hvalid d ((mem_filtered data scenario d).mp hd).1
      ((mem_filtered data scenario d).mp hd).2)
  obtain ⟨p1, h1, v1⟩ := hv "Gross Revenue"
  obtain ⟨p2, h2, v2⟩ := hv "Net Margins"
  obtain ⟨p3, h3, v3⟩ := hv "Net Revenue Retention"
  obtain ⟨p4, h4, v4⟩ := hv "CAC Payback"
  refine ⟨[("Gross Revenue", p1), ("Net Margins", p2), ("Net Revenue Retention", p3),
    ("CAC Payback", p4)], ?_, rfl, ?_⟩
  · simp only [chartCell, if_neg hlen, if_neg hf, metrics, List.mapM_cons, List.mapM_nil,
      h1, h2, h3, h4]
    rfl
  · intro s hs
    simp only [List.mem_cons, List.mem_singleton, List.not_mem_nil, or_false] at hs
    rcases hs with rfl | rfl | rfl | rfl
    · exact ⟨h1, v1⟩
    · exact ⟨h2, v2⟩
    · exact ⟨h3, v3⟩
    · exact ⟨h4, v4⟩

/-- The cell throws exactly when a matching row carries an invalid date, and
then a `RangeError`. -/
theorem chartCell_error_iff (data : List Row) (scenario : String) (e : JSError) :
    chartCell data scenario = .error e ↔
      e = JSError.rangeError ∧
        ∃ d ∈ data, d.Scenario = some scenario ∧ d.QuarterDate = some { time := none } := by
  constructor
  · intro h
    by_cases hinv : ∃ d ∈ data, d.Scenario = some scenario ∧
        d.QuarterDate = some { time := none }
    · rw [chartCell_invalid data scenario hinv] at h
      cases h
      exact ⟨rfl, hinv⟩
    · exfalso
      by_cases hne : data = []
      · subst hne
        rw [chartCell_nil] at h
        cases h
      · by_cases hmatch : ∃ d ∈ data, d.Scenario = some scenario
        · obtain ⟨series, hs, _⟩ := chartCell_valid data scenario hmatch
            (fun d hd hsc hq => hinv ⟨d, hd, hsc, hq⟩)
          rw [hs] at h
          cases h
        · rw [chartCell_no_match data scenario hne
            (fun d hd hsc => hmatch ⟨d, hd, hsc⟩)] at h
          cases h
  · rintro ⟨rfl, hinv⟩
    exact chartCell_invalid data scenario hinv

theorem parseMetric_blank (s : String) (hne : s ≠ "")
    (h : ∀ c ∈ s.toList, c = ',' ∨ c = '$' ∨ c = '%' ∨ JS.isStrWhiteSpace c = true) :
    parseMetric (some s) = some 0 := by
  unfold parseMetric
  simp only [if_neg hne]
  have hall : ∀ c ∈ s.toList.filter (fun c => !(c == ',' || c == '$' || c == '%')),
      JS.isStrWhiteSpace c = true := by
    intro c hc
    rw [List.mem_filter] at hc
    obtain ⟨hmem, hkeep⟩ := hc
    rcases h c hmem with rfl | rfl | rfl | hw
    · simp at hkeep
    · simp at hkeep
    · simp at hkeep
    · exact hw
  have hdrop : (s.data.filter (fun c => !(c == ',' || c == '$' || c == '%'))).dropWhile
      JS.isStrWhiteSpace = [] := by
    rw [List.dropWhile_eq_nil_iff]
    exact hall
  unfold JS.toNumber
  simp only [show ∀ l : List Char, (String.mk l).toList = l from fun _ => rfl, String.toList,
    hdrop, List.reverse_nil, List.dropWhile_nil]

end Scenario

namespace JS

theorem foldl_setAdd_eq (l acc : List String) :
    l.foldl setAdd acc = acc ++ (distinctFirst l).filter (fun y => decide (y ∉ acc)) := by
  induction l generalizing acc with
  | nil => simp [distinctFirst]
  | cons x xs ih =>
    rw [List.foldl_cons]
    by_cases hx : x ∈ acc
    · have hadd : setAdd acc x = acc := by simp [setAdd, hx]
      rw [hadd, ih]
      simp only [distinctFirst, List.filter_cons, hx, not_true_eq_false,
        decide_False, Bool.false_eq_true, if_false, List.filter_filter]
      congr 1
      apply List.filter_congr
      intro y _
      by_cases hy : y ∈ acc
      · simp [hy]
      · have hne : y ≠ x := fun h => hy (h ▸ hx)
        simp [hy, hne]
    · have hadd : setAdd acc x = acc ++ [x] := by simp [setAdd, hx]
      rw [hadd, ih]
      simp only [distinctFirst, List.filter_cons, hx, not_false_eq_true,
        decide_True, if_true, List.filter_filter, List.append_assoc, List.singleton_append]
      congr 2
      apply List.filter_congr
      intro y _
      simp only [List.mem_append, List.mem_singleton, not_or, ne_eq]
      by_cases hy : y ∈ acc <;> by_cases hyx : y = x <;> simp [hy, hyx]

/-- Insertion into a `Set` lists the distinct values in first-occurrence order. -/
theorem firstOccurrences_eq_distinctFirst (l : List String) :
    firstOccurrences l = distinctFirst l := by
  unfold firstOccurrences
  rw [foldl_setAdd_eq]
  simp

end JS

namespace Pareto

theorem y_length (agg : List AggRow) (col : String) : (y agg col).length = agg.length := by
  simp [y, sorted_length]

theorem prepareTraces_length (agg : List AggRow) (col : String) :
    (prepareTraces agg col).length = 3 := rfl

/-- The array `traces` laid out: for each impact column in declared order the
three traces of `prepareTraces`, visible for the first column only. -/
theorem traces_eq (agg : List AggRow) :
    traces agg =
      (prepareTraces agg "Revenue impact").map (fun t => { t with visible := true }) ++
      ((prepareTraces agg "Margin impact").map (fun t => { t with visible := false }) ++
      ((prepareTraces agg "Cash impact").map (fun t => { t with visible := false }) ++
      ((prepareTraces agg "Customer impact").map (fun t => { t with visible := false }) ++
      (prepareTraces agg "Strategic impact").map (fun t => { t with visible := false })))) := by
  simp [traces, impactCols, defaultCol, List.flatMap]

theorem traces_length (agg : List AggRow) : (traces agg).length = 15 := by
  rw [traces_eq]
  simp [prepareTraces_length]

theorem traces_get? (agg : List AggRow) (i k : Nat) (hi : i < 5) (hk : k < 3) :
    ∃ col t, impactCols.get? i = some col ∧ (prepareTraces agg col).get? k = some t ∧
      (traces agg).get? (3 * i + k) = some { t with visible := decide (i = 0) } := by
  rw [traces_eq]
  interval_cases i <;> interval_cases k <;>
    exact ⟨_, _, rfl, rfl, rfl⟩

theorem traces_visible (agg : List AggRow) :
    (traces agg).map (fun t => t.visible) =
      [true, true, true, false, false, false, false, false, false, false, false, false,
        false, false, false] := by
  rw [traces_eq]
  rfl

theorem visibility_eq (i : Nat) :
    visibility i =
      [0 == i, 0 == i, 0 == i, 1 == i, 1 == i, 1 == i, 2 == i, 2 == i, 2 == i,
        3 == i, 3 == i, 3 == i, 4 == i, 4 == i, 4 == i] := by
  simp [visibility, impactCols, List.enum, List.enumFrom]

theorem visibility_length (i : Nat) : (visibility i).length = 15 := by
  rw [visibility_eq]
  rfl

theorem visibility_get? (i j : Nat) (hj : j < 15) :
    (visibility i).get? j = some (decide (3 * i ≤ j ∧ j ≤ 3 * i + 2)) := by
  rw [visibility_eq]
  have key : ∀ k : Nat, (k == i) = decide (k = i) := fun k => by
    by_cases h : k = i <;> simp [h]
  simp only [key]
  interval_cases j <;>
    · simp only [List.get?_cons_succ, List.get?_cons_zero, Option.some.injEq, decide_eq_decide]
      omega

theorem get?_zero_eq_head? {α : Type} (l : List α) : l.get? 0 = l.head? := by
  cases l <;> rfl

theorem get?_pred_eq_getLast? {α : Type} (l : List α) : l.get? (l.length - 1) = l.getLast? := by
  rw [List.getLast?_eq_getElem?, List.get?_eq_getElem?]

/-- The three traces of `prepareTraces`, member by member. -/
theorem prepareTraces_shape (agg : List AggRow) (col : String) :
    ∃ bar line cutoff, prepareTraces agg col = [bar, line, cutoff] ∧
      bar.x = vals agg col ∧ line.x = pct agg col ∧
      bar.y = (y agg col).map some ∧ line.y = (y agg col).map some ∧
      cutoff.x = [80, 80] ∧ cutoff.y = [(y agg col).head?, (y agg col).getLast?] := by
  refine ⟨_, _, _, rfl, rfl, rfl, rfl, rfl, rfl, ?_⟩
  simp only [get?_zero_eq_head?, get?_pred_eq_getLast?]

theorem y_head_getLast (agg : List AggRow) (col : String) (hne : agg ≠ []) :
    ∃ f l, (y agg col).head? = some f ∧ (y agg col).getLast? = some l := by
  have hlen := y_length agg col
  have hy : y agg col ≠ [] := by
    intro h
    rw [h] at hlen
    exact hne (List.length_eq_zero.mp hlen.symm)
  cases hyc : y agg col with
  | nil => exact absurd hyc hy
  | cons a as =>
    refine ⟨a, (a :: as).getLast (List.cons_ne_nil _ _), rfl, ?_⟩
    exact List.getLast?_eq_getLast _ _

/-- The aggregation has a row once a key of the dataset is not the name of a
member of `Object.prototype`. -/
theorem agg_ne_nil (data : List Record) (h : ∀ d ∈ data, keyOf d ≠ "__proto__")
    (hk : ∃ d ∈ data, keyOf d ∉ JS.protoFunctionNames) :
    ∃ a, agg data = .ok a ∧ a ≠ [] := by
  refine ⟨_, agg_eq data h, ?_⟩
  obtain ⟨d, hd, hfn⟩ := hk
  have hmem : aggRow [] (keyOf d, groupOf data (keyOf d)) ∈
      (JS.ownPropertyOrder (ownOf data)).map (aggRow []) :=
    (mem_agg_rows data _).mpr
      ⟨keyOf d, (mem_keysOf data _).mpr ⟨List.mem_map.mpr ⟨d, hd, rfl⟩, hfn⟩, rfl⟩
  intro hnil
  rw [hnil] at hmem
  exact absurd hmem (List.not_mem_nil _)

theorem view_eq (data : List Record) (hne : data ≠ []) (a : List AggRow)
    (ha : agg data = .ok a) :
    view data = .ok (View.chart (traces a)
      (impactCols.enum.map (fun ic => (ic.2, visibility ic.1)))) := by
  have hlen : data.length ≠ 0 := by simpa using hne
  simp only [view, if_neg hlen, ha]
  rfl

/-- The value of a row of `agg` as the zero-filled mean. -/
theorem aggRow_num_zeroFilled (data : List Record) (k c : String) (hc : c ∈ impactCols) :
    (aggRow [] (k, groupOf data k)).num c = zeroFilledMean data k c := by
  rw [aggRow_num data k c hc, zeroFilledMean, validValues]
  congr 1
  exact (sum_contribution (recordsOf data k) c).symm

theorem runningSums_bounds (s : ℚ) (vs : List ℚ) (h : ∀ v ∈ vs, 0 ≤ v) :
    ∀ x ∈ runningSums s vs, s ≤ x ∧ x ≤ s + vs.sum := by
  induction vs generalizing s with
  | nil => intro x hx; simp [runningSums] at hx
  | cons v vs ih =>
    have hv : 0 ≤ v := h v (List.mem_cons_self _ _)
    have hvs : ∀ w ∈ vs, 0 ≤ w := fun w hw => h w (List.mem_cons_of_mem _ hw)
    have hsum : 0 ≤ vs.sum := List.sum_nonneg hvs
    intro x hx
    simp only [runningSums, List.mem_cons] at hx
    rw [List.sum_cons]
    rcases hx with rfl | hx
    · constructor <;> linarith
    · obtain ⟨h1, h2⟩ := ih (s + v) hvs x hx
      constructor <;> linarith

theorem runningSums_pairwise (s : ℚ) (vs : List ℚ) (h : ∀ v ∈ vs, 0 ≤ v) :
    (runningSums s vs).Pairwise (fun a b => a ≤ b) := by
  induction vs generalizing s with
  | nil => exact List.Pairwise.nil
  | cons v vs ih =>
    have hvs : ∀ w ∈ vs, 0 ≤ w := fun w hw => h w (List.mem_cons_of_mem _ hw)
    simp only [runningSums]
    refine List.pairwise_cons.mpr ⟨?_, ih (s + v) hvs⟩
    intro x hx
    exact (runningSums_bounds (s + v) vs hvs x hx).1

theorem totalOf_cumOf (vs : List ℚ) : totalOf (cumOf vs) = vs.sum := by
  by_cases hvs : vs = []
  · subst hvs
    rfl
  · have hlen : vs.length ≠ 0 := by simpa using hvs
    have hc : cumOf vs ≠ [] := by
      intro h
      have := cumOf_length vs
      rw [h] at this
      exact hlen this.symm
    have h1 := totalOf_eq_getLast (cumOf vs) hc
    rw [List.getLast?_eq_getElem?, cumOf_length,
      cumOf_getElem? vs (vs.length - 1) (by omega)] at h1
    have h2 : vs.length - 1 + 1 = vs.length := by omega
    rw [h2, List.take_length] at h1
    exact (Option.some.inj h1).symm

/-- With non-negative values the cumulative percentages do not decrease and
stay between 0 and 100. -/
theorem pctOf_cumOf_monotone (vs : List ℚ) (h : ∀ v ∈ vs, 0 ≤ v) :
    (pctOf (cumOf vs)).Pairwise (fun a b => a ≤ b) ∧
      ∀ p ∈ pctOf (cumOf vs), 0 ≤ p ∧ p ≤ 100 := by
  have htot := totalOf_cumOf vs
  have hsum : 0 ≤ vs.sum := List.sum_nonneg h
  by_cases ht : totalOf (cumOf vs) = 0
  · have hz := pctOf_zero (cumOf vs) ht
    constructor
    · apply List.pairwise_of_forall_mem_list
      intro a ha b hb
      rw [hz a ha, hz b hb]
    · intro p hp
      rw [hz p hp]
      constructor <;> norm_num
  · have hpos : 0 < totalOf (cumOf vs) := by
      rw [htot] at ht ⊢
      exact lt_of_le_of_ne hsum (Ne.symm ht)
    have hb := runningSums_bounds 0 vs h
    have hpw := runningSums_pairwise 0 vs h
    rw [← cumOf_eq] at hb hpw
    simp only [zero_add, ← htot] at hb
    simp only [pctOf, ht, ne_eq, not_false_eq_true, if_true]
    constructor
    · apply List.Pairwise.map _ _ hpw
      intro a b hab
      have : a / totalOf (cumOf vs) ≤ b / totalOf (cumOf vs) :=
        div_le_div_of_nonneg_right hab (le_of_lt hpos)
      linarith
    · intro p hp
      obtain ⟨x, hx, rfl⟩ := List.mem_map.mp hp
      obtain ⟨h0, h1⟩ := hb x hx
      have hd0 : 0 ≤ x / totalOf (cumOf vs) := div_nonneg h0 (le_of_lt hpos)
      have hd1 : x / totalOf (cumOf vs) ≤ 1 := (div_le_one hpos).mpr h1
      constructor <;> linarith

theorem vals_nonneg (agg : List AggRow) (col : String) (h : ∀ r ∈ agg, 0 ≤ r.num col) :
    ∀ v ∈ vals agg col, 0 ≤ v := by
  intro v hv
  simp only [vals, List.mem_map] at hv
  obtain ⟨r, hr, rfl⟩ := hv
  exact h r ((sorted_perm agg col).mem_iff.mp hr)

end Pareto

namespace JS

/-- Within a year the quarters follow one another. -/
theorem daysFromCivil_quarter_step (y n : ℤ) (hn : 1 ≤ n ∧ n ≤ 3) :
    Calendar.daysFromCivil y ((n - 1) * 3 + 1) 1 < Calendar.daysFromCivil y (n * 3 + 1) 1 := by
  have c : n = 1 ∨ n = 2 ∨ n = 3 := by omega
  rcases c with rfl | rfl | rfl
  all_goals
    simp only [Calendar.daysFromCivil]
    norm_num <;> omega

/-- The last quarter of a year comes before the first of the next. -/
theorem daysFromCivil_year_step (y : ℤ) :
    Calendar.daysFromCivil y 10 1 < Calendar.daysFromCivil (y + 1) 1 1 := by
  simp only [Calendar.daysFromCivil]
  norm_num

/-- Within a year an earlier quarter starts earlier. -/
theorem daysFromCivil_quarter_lt (y n1 n2 : ℤ) (h1 : 1 ≤ n1) (h12 : n1 < n2) (h2 : n2 ≤ 4) :
    Calendar.daysFromCivil y ((n1 - 1) * 3 + 1) 1 < Calendar.daysFromCivil y ((n2 - 1) * 3 + 1) 1 := by
  have s1 := daysFromCivil_quarter_step y 1 (by omega)
  have s2 := daysFromCivil_quarter_step y 2 (by omega)
  have s3 := daysFromCivil_quarter_step y 3 (by omega)
  norm_num at s1 s2 s3
  have c1 : n1 = 1 ∨ n1 = 2 ∨ n1 = 3 := by omega
  have c2 : n2 = 2 ∨ n2 = 3 ∨ n2 = 4 := by omega
  rcases c1 with rfl | rfl | rfl <;> rcases c2 with rfl | rfl | rfl <;> norm_num <;>
    linarith

/-- The first quarter of a later year starts later. -/
theorem daysFromCivil_first_quarter_mono (y : ℤ) (k : ℕ) :
    Calendar.daysFromCivil y 1 1 ≤ Calendar.daysFromCivil (y + k) 1 1 := by
  induction k with
  | zero => simp
  | succ k ih =>
    have a := daysFromCivil_quarter_lt (y + k) 1 4 (by omega) (by omega) (by omega)
    have b := daysFromCivil_year_step (y + k)
    norm_num at a
    have e : y + ((k + 1 : ℕ) : ℤ) = y + k + 1 := by push_cast; ring
    rw [e]
    linarith

/-- A quarter of an earlier year starts before every quarter of a later year. -/
theorem daysFromCivil_year_lt (y1 y2 n1 n2 : ℤ) (h1 : 1 ≤ n1 ∧ n1 ≤ 4) (h2 : 1 ≤ n2 ∧ n2 ≤ 4)
    (hy : y1 < y2) :
    Calendar.daysFromCivil y1 ((n1 - 1) * 3 + 1) 1 < Calendar.daysFromCivil y2 ((n2 - 1) * 3 + 1) 1 := by
  have a : Calendar.daysFromCivil y1 ((n1 - 1) * 3 + 1) 1 ≤ Calendar.daysFromCivil y1 10 1 := by
    by_cases h : n1 = 4
    · subst h; norm_num
    · have := daysFromCivil_quarter_lt y1 n1 4 h1.1 (by omega) (by omega)
      norm_num at this
      exact le_of_lt this
  have b := daysFromCivil_year_step y1
  have c : Calendar.daysFromCivil (y1 + 1) 1 1 ≤ Calendar.daysFromCivil y2 1 1 := by
    have := daysFromCivil_first_quarter_mono (y1 + 1) (y2 - (y1 + 1)).toNat
    have e : y1 + 1 + (((y2 - (y1 + 1)).toNat : ℕ) : ℤ) = y2 := by
      rw [Int.toNat_of_nonneg (by omega)]
      ring
    rwa [e] at this
  have d : Calendar.daysFromCivil y2 1 1 ≤ Calendar.daysFromCivil y2 ((n2 - 1) * 3 + 1) 1 := by
    by_cases h : n2 = 1
    · subst h; norm_num
    · have := daysFromCivil_quarter_lt y2 1 n2 (by omega) (by omega) h2.2
      norm_num at this
      exact le_of_lt this
  linarith

/-- The start of a quarter is earlier exactly when the pair of year and
quarter is smaller in the lexicographic order. -/
theorem daysFromCivil_quarter_lt_iff (y1 y2 n1 n2 : ℤ) (h1 : 1 ≤ n1 ∧ n1 ≤ 4)
    (h2 : 1 ≤ n2 ∧ n2 ≤ 4) :
    Calendar.daysFromCivil y1 ((n1 - 1) * 3 + 1) 1 < Calendar.daysFromCivil y2 ((n2 - 1) * 3 + 1) 1 ↔
      y1 < y2 ∨ (y1 = y2 ∧ n1 < n2) := by
  constructor
  · intro h
    by_contra hcon
    push_neg at hcon
    obtain ⟨hy, hn⟩ := hcon
    rcases lt_or_eq_of_le hy with hlt | heq
    · have := daysFromCivil_year_lt y2 y1 n2 n1 h2 h1 hlt
      linarith
    · subst heq
      have hn' := hn rfl
      rcases lt_or_eq_of_le hn' with hlt | he
      · have := daysFromCivil_quarter_lt y2 n2 n1 h2.1 hlt h1.2
        linarith
      · rw [he] at h
        exact lt_irrefl _ h
  · rintro (hy | ⟨rfl, hn⟩)
    · exact daysFromCivil_year_lt y1 y2 n1 n2 h1 h2 hy
    · exact daysFromCivil_quarter_lt y1 n1 n2 h1.1 hn h2.2

theorem daysFromCivil_quarter_eq_iff (y1 y2 n1 n2 : ℤ) (h1 : 1 ≤ n1 ∧ n1 ≤ 4)
    (h2 : 1 ≤ n2 ∧ n2 ≤ 4) :
    Calendar.daysFromCivil y1 ((n1 - 1) * 3 + 1) 1 = Calendar.daysFromCivil y2 ((n2 - 1) * 3 + 1) 1 ↔
      y1 = y2 ∧ n1 = n2 := by
  constructor
  · intro h
    have a := daysFromCivil_quarter_lt_iff y1 y2 n1 n2 h1 h2
    have b := daysFromCivil_quarter_lt_iff y2 y1 n2 n1 h2 h1
    have na : ¬ (y1 < y2 ∨ (y1 = y2 ∧ n1 < n2)) := fun hc => by
      have := a.mpr hc
      rw [h] at this
      exact lt_irrefl _ this
    have nb : ¬ (y2 < y1 ∨ (y2 = y1 ∧ n2 < n1)) := fun hc => by
      have := b.mpr hc
      rw [h] at this
      exact lt_irrefl _ this
    push_neg at na nb
    have hy : y1 = y2 := le_antisymm nb.1 na.1
    exact ⟨hy, le_antisymm (nb.2 hy.symm) (na.2 hy)⟩
  · rintro ⟨rfl, rfl⟩
    rfl

end JS

namespace Scenario

theorem quarter_digit_value (n : Char) (hn : n = '1' ∨ n = '2' ∨ n = '3' ∨ n = '4') :
    n.isDigit = true ∧ 1 ≤ (JS.digitsValue [n] : ℤ) ∧ (JS.digitsValue [n] : ℤ) ≤ 4 := by
  rcases hn with rfl | rfl | rfl | rfl <;> decide

/-- The time value of the date of a quarter label with a year from 0100 on and
a quarter from 1 to 4. -/
theorem quarterToDate_label_time (dateParse : String → Option ℤ) (y1 y2 y3 y4 : Char)
    (sep : List Char) (q n : Char)
    (hy : y1.isDigit = true ∧ y2.isDigit = true ∧ y3.isDigit = true ∧ y4.isDigit = true)
    (hsep : sep = [] ∨ sep = ['-'] ∨ sep = [' ']) (hq : q = 'Q' ∨ q = 'q')
    (hn : n = '1' ∨ n = '2' ∨ n = '3' ∨ n = '4')
    (hyear : 100 ≤ JS.digitsValue [y1, y2, y3, y4]) :
    quarterToDate dateParse (some (String.mk ([y1, y2, y3, y4] ++ sep ++ [q, n]))) =
      some { time := some (Calendar.daysFromCivil (JS.digitsValue [y1, y2, y3, y4] : ℤ)
        (((JS.digitsValue [n] : ℤ) - 1) * 3 + 1) 1 * 86400000) } := by
  obtain ⟨h1, h2, h3, h4⟩ := hy
  obtain ⟨hnd, hnv⟩ := quarter_digit_value n hn
  have hle := digitsValue_four y1 y2 y3 y4 h1 h2 h3 h4
  have hY : (100 : ℤ) ≤ (JS.digitsValue [y1, y2, y3, y4] : ℤ) ∧
      (JS.digitsValue [y1, y2, y3, y4] : ℤ) ≤ 9999 := by
    constructor <;> exact_mod_cast (by assumption)
  rw [quarterToDate_label dateParse y1 y2 y3 y4 sep q n h1 h2 h3 h4 hsep hq hnd,
    JS.dateUTC_quarter _ _ hY hnv, Option.some_bind,
    JS.timeClip_utcMidnight_quarter _ _ ⟨by omega, hY.2⟩ hnv]
  rfl

end Scenario

/-! ## The claims -/

namespace Pareto

/-- C1 (as stated, refuted). With the records `A: "10"` and `A: ""` the code
yields 5 for `A` while the mean of the valid values is 10; and a record of key
`__proto__` changes the value of the key `A` that follows it (15 for the single
value 10). -/
theorem agg_mean_counterexample :
    (agg mixedRecords).map (fun rows => rows.map (fun r => (r.painPoints, r.num "Revenue impact")))
        = .ok [("A", 5)] ∧
      meanOfValid mixedRecords "A" "Revenue impact" = 10 ∧
      (agg protoRecords).map (fun rows => rows.map (fun r => (r.painPoints, r.num "Revenue impact")))
        = .ok [("A", 15)] ∧
      meanOfValid protoRecords "A" "Revenue impact" = 10 := by
  decide!

/-- C1 (amended). For a dataset without the key `__proto__` the aggregation
returns rows, one for every key that is not the name of a function of
`Object.prototype`; the value of a row for an impact column is the sum of the
valid values of the key divided by the number of all records of the key. It
is 0 when the key has no valid value, and it is the mean of the valid values
if and only if every record of the key has a valid value or the valid values
of the key sum to 0. -/
theorem agg_value_sum_over_count (data : List Record)
    (hproto : ∀ d ∈ data, keyOf d ≠ "__proto__") :
    ∃ rows, agg data = .ok rows ∧
      (∀ d ∈ data, keyOf d ∉ JS.protoFunctionNames → ∃ row ∈ rows, row.painPoints = keyOf d) ∧
      ∀ row ∈ rows, ∀ c ∈ impactCols,
        row.num c = (validValues data row.painPoints c).sum /
            ((recordsOf data row.painPoints).length : ℚ) ∧
          (validValues data row.painPoints c = [] → row.num c = 0) ∧
          (row.num c = meanOfValid data row.painPoints c ↔
            (validValues data row.painPoints c).length = (recordsOf data row.painPoints).length ∨
              (validValues data row.painPoints c).sum = 0) := by
  refine ⟨_, agg_eq data hproto, ?_, ?_⟩
  · intro d hd hfn
    refine ⟨aggRow [] (keyOf d, groupOf data (keyOf d)), ?_, rfl⟩
    exact (mem_agg_rows data _).mpr
      ⟨keyOf d, (mem_keysOf data _).mpr ⟨List.mem_map.mpr ⟨d, hd, rfl⟩, hfn⟩, rfl⟩
  · intro row hrow c hc
    obtain ⟨k, _, rfl⟩ := (mem_agg_rows data row).mp hrow
    have hnum := aggRow_num data k c hc
    have hk : (aggRow [] (k, groupOf data k)).painPoints = k := rfl
    rw [hk]
    refine ⟨hnum, ?_, ?_⟩
    · intro hnil
      rw [hnum, hnil]
      simp
    · have hle : (validValues data k c).length ≤ (recordsOf data k).length :=
        List.length_filterMap_le _ _
      rw [hnum, meanOfValid]
      split_ifs with h0
      · rw [List.length_eq_zero.mp h0]
        simp
      · have hm : ((validValues data k c).length : ℚ) ≠ 0 := by exact_mod_cast h0
        have hn : ((recordsOf data k).length : ℚ) ≠ 0 := by
          have hpos : (recordsOf data k).length ≠ 0 := by omega
          exact_mod_cast hpos
        constructor
        · intro h
          by_cases hs : (validValues data k c).sum = 0
          · exact Or.inr hs
          · rw [div_eq_div_iff hn hm] at h
            exact Or.inl (by exact_mod_cast mul_left_cancel₀ hs h)
        · rintro (h | h)
          · rw [h]
          · rw [h, zero_div, zero_div]

/-- C1 (witness): the amended statement at the records `A: "10"`, `A: ""`. -/
theorem agg_value_sum_over_count_witness :
    ∃ rows, agg mixedRecords = .ok rows ∧
      (∀ d ∈ mixedRecords, keyOf d ∉ JS.protoFunctionNames →
        ∃ row ∈ rows, row.painPoints = keyOf d) ∧
      ∀ row ∈ rows, ∀ c ∈ impactCols,
        row.num c = (validValues mixedRecords row.painPoints c).sum /
            ((recordsOf mixedRecords row.painPoints).length : ℚ) ∧
          (validValues mixedRecords row.painPoints c = [] → row.num c = 0) ∧
          (row.num c = meanOfValid mixedRecords row.painPoints c ↔
            (validValues mixedRecords row.painPoints c).length =
                (recordsOf mixedRecords row.painPoints).length ∨
              (validValues mixedRecords row.painPoints c).sum = 0) :=
  agg_value_sum_over_count mixedRecords (by decide)

/-- C2. For a non-empty list of aggregated rows and any metric, the cumulative
percentages are as many as the rows, the total is the last cumulative sum, the
last percentage is 100 when the total is not 0, and every percentage is 0 when
the total is 0. -/
theorem pct_last_is_100 (agg : List AggRow) (col : String) (hne : agg ≠ []) :
    (pct agg col).length = agg.length ∧
      (cum agg col).getLast? = some (totalOf (cum agg col)) ∧
      (totalOf (cum agg col) ≠ 0 → (pct agg col).getLast? = some 100) ∧
      (totalOf (cum agg col) = 0 → ∀ p ∈ pct agg col, p = 0) :=
  ⟨pct_length agg col, totalOf_eq_getLast _ (cum_ne_nil agg col hne),
    pctOf_getLast _ (cum_ne_nil agg col hne), pctOf_zero _⟩

/-- C2 (witness): the statement at two aggregated rows. -/
theorem pct_last_is_100_witness :
    (pct exampleAgg "Revenue impact").length = exampleAgg.length ∧
      (cum exampleAgg "Revenue impact").getLast? =
        some (totalOf (cum exampleAgg "Revenue impact")) ∧
      (totalOf (cum exampleAgg "Revenue impact") ≠ 0 →
        (pct exampleAgg "Revenue impact").getLast? = some 100) ∧
      (totalOf (cum exampleAgg "Revenue impact") = 0 →
        ∀ p ∈ pct exampleAgg "Revenue impact", p = 0) :=
  pct_last_is_100 exampleAgg "Revenue impact" (by decide)

/-- C3. The order `sorted` of `prepareTraces` is a stable descending sort of
the aggregated rows: a permutation of them, with non-increasing metric values,
in which the rows of one metric value stand as they stood, so that two rows of
equal value keep their relative order. The categories `y` and the values `vals`
are read off this order. -/
theorem sorted_is_stable_descending (agg : List AggRow) (col : String) :
    (sorted agg col).Perm agg ∧
      (sorted agg col).Pairwise (fun a b => b.num col ≤ a.num col) ∧
      (∀ v : ℚ, (sorted agg col).filter (fun r => decide (r.num col = v)) =
        agg.filter (fun r => decide (r.num col = v))) ∧
      (∀ a b : AggRow, a.num col = b.num col → List.Sublist [a, b] agg →
        List.Sublist [a, b] (sorted agg col)) ∧
      y agg col = (sorted agg col).map (fun r => r.painPoints) ∧
      vals agg col = (sorted agg col).map (fun r => r.num col) :=
  ⟨sorted_perm agg col, sorted_descending agg col, sorted_filter_eq agg col,
    fun a b hab h => sorted_pair agg col a b hab h, rfl, rfl⟩

/-- C4 (the code at the failing input). For records with the keys `b`, `10`,
`2`, `constructor` in this order the rows come out as `2`, `10`, `b`: the keys
that are array indices are moved to the front in numeric order and the key
`constructor` has no row, while the distinct keys in first-occurrence order
are `b`, `10`, `2`, `constructor`. For a dataset none of whose keys is an array
index or the name of a member of `Object.prototype` (such as the keys `A`, `A`,
`B`), the rows are one per distinct key in first-occurrence order. -/
theorem agg_key_order_at_index_keys :
    (agg indexKeyRecords).map (fun rows => rows.map (fun r => r.painPoints))
        = .ok ["2", "10", "b"] ∧
      JS.firstOccurrences (indexKeyRecords.map keyOf) = ["b", "10", "2", "constructor"] ∧
      (agg exampleRecords).map (fun rows => rows.map (fun r => r.painPoints)) = .ok ["A", "B"] ∧
      (∀ data : List Record,
        (∀ d ∈ data, keyOf d ≠ "__proto__" ∧ keyOf d ∉ JS.protoFunctionNames ∧
          JS.arrayIndex (keyOf d) = none) →
        (agg data).map (fun rows => rows.map (fun r => r.painPoints)) =
            .ok (JS.firstOccurrences (data.map keyOf)) ∧
          (JS.firstOccurrences (data.map keyOf)).Nodup ∧
          ∀ k, k ∈ JS.firstOccurrences (data.map keyOf) ↔ ∃ d ∈ data, keyOf d = k) := by
  refine ⟨by decide!, by decide!, by decide!, ?_⟩
  intro data h
  have hkeys := keysOf_of_no_function_name data (fun d hd => (h d hd).2.1)
  have hidx : ∀ p ∈ ownOf data, JS.arrayIndex p.1 = none := by
    intro p hp
    simp only [ownOf, List.mem_map] at hp
    obtain ⟨k, hk, rfl⟩ := hp
    rw [hkeys, JS.mem_firstOccurrences] at hk
    obtain ⟨d, hd, rfl⟩ := List.mem_map.mp hk
    exact (h d hd).2.2
  refine ⟨?_, JS.firstOccurrences_nodup _, ?_⟩
  · rw [agg_keys data (fun d hd => (h d hd).1), JS.ownPropertyOrder_of_no_index _ hidx, ownOf,
      List.map_map, hkeys]
    exact congrArg Except.ok (List.map_id _)
  · intro k
    rw [JS.mem_firstOccurrences, List.mem_map]

/-- C5. For every list of aggregated rows and metric, `cum` has one entry per
value and `cum[i]` is `vals[0] + ... + vals[i]`; when the total `cum[last]` is
not 0, `pct[i]` is `cum[i] / cum[last] * 100`. On the records `A: 10`, `A: 20`,
`B: 5` the means are 15 and 5, the order is `A`, `B`, the cumulative sums are
15, 20 and the cumulative percentages 75, 100. -/
theorem cum_and_pct_formulas :
    (∀ (agg : List AggRow) (col : String),
      (cum agg col).length = (vals agg col).length ∧
      (∀ i, i < (vals agg col).length →
        (cum agg col).get? i = some (((vals agg col).take (i + 1)).sum)) ∧
      (agg ≠ [] → (cum agg col).getLast? = some (totalOf (cum agg col))) ∧
      (totalOf (cum agg col) ≠ 0 → ∀ i,
        (pct agg col).get? i = ((cum agg col).get? i).map
          (fun v => v / totalOf (cum agg col) * 100))) ∧
    (agg exampleRecords).map (fun rows =>
        (rows.map (fun r => (r.painPoints, r.num "Revenue impact")),
          y rows "Revenue impact", vals rows "Revenue impact",
          cum rows "Revenue impact", pct rows "Revenue impact"))
      = .ok ([("A", 15), ("B", 5)], ["A", "B"], [15, 5], [15, 20], [75, 100]) := by
  refine ⟨fun agg col => ⟨cumOf_length _, ?_, ?_, ?_⟩, by decide!⟩
  · intro i hi
    rw [List.get?_eq_getElem?]
    exact cumOf_getElem? _ i hi
  · intro hne
    exact totalOf_eq_getLast _ (cum_ne_nil agg col hne)
  · intro ht i
    exact pctOf_getElem? _ ht i

end Pareto

namespace Scenario

/-- C6. For every dataset and metric `m`: when `m` is ratio-like and all its
valid values are at most 5 (so is their maximum), the scale step multiplies
every valid value of `m` by 100, record by record; when `m` is ratio-like and a
valid value exceeds 5 it changes no value of `m`; when `m` is not ratio-like it
changes no value of `m`; and `NaN` stays `NaN` in every case. The net margins
0.1, 0.4, 0.9 become 10, 40, 90, and 10, 40, 90 stay. -/
theorem scale_by_maximum :
    (∀ (rows : List Row) (m : String),
      ((m = "Net Margins" ∨ m = "Net Revenue Retention") →
        (∀ x ∈ validVals rows m, x ≤ 5) →
        (scale rows).map (fun r => r.get m) =
          rows.map (fun r => (r.get m).map (fun x => x * 100))) ∧
      ((m = "Net Margins" ∨ m = "Net Revenue Retention") →
        (∃ x ∈ validVals rows m, 5 < x) →
        (scale rows).map (fun r => r.get m) = rows.map (fun r => r.get m)) ∧
      (¬ (m = "Net Margins" ∨ m = "Net Revenue Retention") →
        (scale rows).map (fun r => r.get m) = rows.map (fun r => r.get m)) ∧
      (scale rows).map (fun r => (r.get m).isNone) = rows.map (fun r => (r.get m).isNone)) ∧
    (scale ratioRows).map (fun r => r.get "Net Margins") = [some 10, some 40, some 90] ∧
    (scale percentRows).map (fun r => r.get "Net Margins") = [some 10, some 40, some 90] ∧
    scale percentRows = percentRows := by
  refine ⟨fun rows m => ⟨scale_get_small rows m, fun _ h => scale_get_large rows m h,
    scale_get_not_ratio rows m, scale_get_isNone rows m⟩, by decide!, by decide!, by decide!⟩

/-- C7. When, after one application of the scale step, a valid value of the
metric exceeds 5 (the maximum is above 5), a second application changes no
value of that metric. This holds for every metric, the ratio-like ones among
them. -/
theorem scale_twice (rows : List Row) (m : String)
    (hmax : ∃ x ∈ validVals (scale rows) m, 5 < x) :
    (scale (scale rows)).map (fun r => r.get m) = (scale rows).map (fun r => r.get m) :=
  scale_get_large (scale rows) m hmax

/-- C7 (witness): the net margins 0.1, 0.4, 0.9, which the first pass takes
to 10, 40, 90. -/
theorem scale_twice_witness :
    (∃ x ∈ validVals (scale ratioRows) "Net Margins", 5 < x) ∧
      (scale (scale ratioRows)).map (fun r => r.get "Net Margins") =
        (scale ratioRows).map (fun r => r.get "Net Margins") :=
  ⟨by decide!, scale_twice ratioRows "Net Margins" (by decide!)⟩

/-- C8 (the code at the failing input). The label `n/a` is no quarter and no
date, so `quarterToDate` returns an invalid date for it; for the three rows of
scenario `Base`, one of them with this label, `values` throws a `RangeError`
and no point sequence is built, and so does the chart cell. On every dataset
whose matching rows carry no invalid date (such as the three rows of 2024
with the net margins 0.1, 0.4, 0.9) the sequence is built and has one point per
matching row, in the order of `filtered`, with the value of the row, `null`
for `NaN`. -/
theorem values_at_invalid_date :
    quarterToDate parsesNothing (some "n/a") = some { time := none } ∧
      (invalidDateRows.filter (fun d => d.Scenario == some "Base")).length = 3 ∧
      values (filtered invalidDateRows "Base") "Gross Revenue" = .error JSError.rangeError ∧
      chartCell invalidDateRows "Base" = .error JSError.rangeError ∧
      (values (filtered ratioRows "Base") "Net Margins").map (fun pts => pts.map (fun p => p.value))
        = .ok [some (1 / 10), some (4 / 10), some (9 / 10)] ∧
      (∀ (data : List Row) (scenario metric : String),
        (∀ d ∈ data, d.Scenario = some scenario → d.QuarterDate ≠ some { time := none }) →
        ∃ pts, values (filtered data scenario) metric = .ok pts ∧
          pts.length = (data.filter (fun d => d.Scenario == some scenario)).length ∧
          pts.map (fun p => p.value) = (filtered data scenario).map (fun d => d.get metric)) := by
  refine ⟨by decide!, by decide!, by decide!, by decide!, by decide!, ?_⟩
  intro data scenario metric hvalid
  obtain ⟨pts, hpts, hval⟩ := values_ok (filtered data scenario) metric
    (fun d hd => hvalid d ((mem_filtered data scenario d).mp hd).1
      ((mem_filtered data scenario d).mp hd).2)
  refine ⟨pts, hpts, ?_, hval⟩
  have := congrArg List.length hval
  simpa [filtered_length] using this

/-- C9 (as stated, refuted). A row without temporal value comes after the row
of the last quarter of 1969; and with a row whose label is not a date (its
`QuarterDate` is an invalid date, not `null`) the embedded sort leaves the rows
2024, `n/a`, 2023 as they were, which is not ascending. -/
theorem filtered_counterexample :
    filtered earlyRows "Base" = earlyRows.reverse ∧
      (earlyRows.map (fun d => d.QuarterDate)) = [none, some { time := some (-7948800000) }] ∧
      (filtered invalidDateRows "Base").map (fun d => d.Quarter) =
        [some "2024-Q1", some "n/a", some "2023-Q1"] := by
  decide!

/-- C9 (amended). When no matching row carries an invalid date, `filtered` is
the matching rows in ascending order of the sort key, which is the time value
of a dated row and 0, the time value of 1 January 1970, for a row without
temporal value. So such a row comes before every row dated after 1 January
1970 and after every row dated before it. -/
theorem filtered_ascending (data : List Row) (scenario : String)
    (hvalid : ∀ d ∈ data, d.Scenario = some scenario → d.QuarterDate ≠ some { time := none }) :
    (filtered data scenario).Perm (data.filter (fun d => d.Scenario == some scenario)) ∧
      (filtered data scenario).Pairwise
        (fun a b => (sortKey a).getD 0 ≤ (sortKey b).getD 0) ∧
      (∀ d : Row, d.QuarterDate = none → sortKey d = some 0) ∧
      (∀ (d : Row) (t : ℤ), d.QuarterDate = some { time := some t } → sortKey d = some (t : ℚ)) ∧
      (∀ (a b : Row) (t : ℤ), a.QuarterDate = none → b.QuarterDate = some { time := some t } →
        0 < t → ¬ List.Sublist [b, a] (filtered data scenario)) ∧
      (∀ (a b : Row) (t : ℤ), a.QuarterDate = none → b.QuarterDate = some { time := some t } →
        t < 0 → ¬ List.Sublist [a, b] (filtered data scenario)) := by
  have hkn : ∀ d : Row, d.QuarterDate = none → sortKey d = some 0 := by
    intro d hd
    simp [sortKey, hd]
  have hkt : ∀ (d : Row) (t : ℤ), d.QuarterDate = some { time := some t } →
      sortKey d = some (t : ℚ) := by
    intro d t hd
    simp [sortKey, hd]
  have hpw := filtered_pairwise data scenario hvalid
  refine ⟨filtered_perm data scenario, hpw, hkn, hkt, ?_, ?_⟩
  · intro a b t ha hb ht hsub
    have h := (List.pairwise_iff_forall_sublist.mp hpw) hsub
    rw [hkn a ha, hkt b t hb] at h
    simp only [Option.getD_some] at h
    have : (0 : ℚ) < (t : ℚ) := by exact_mod_cast ht
    linarith
  · intro a b t ha hb ht hsub
    have h := (List.pairwise_iff_forall_sublist.mp hpw) hsub
    rw [hkn a ha, hkt b t hb] at h
    simp only [Option.getD_some] at h
    have : (t : ℚ) < 0 := by exact_mod_cast ht
    linarith

/-- C9 (witness): the amended statement at the two rows above. -/
theorem filtered_ascending_witness :
    (filtered earlyRows "Base").Perm (earlyRows.filter (fun d => d.Scenario == some "Base")) ∧
      (filtered earlyRows "Base").Pairwise
        (fun a b => (sortKey a).getD 0 ≤ (sortKey b).getD 0) ∧
      (∀ d : Row, d.QuarterDate = none → sortKey d = some 0) ∧
      (∀ (d : Row) (t : ℤ), d.QuarterDate = some { time := some t } → sortKey d = some (t : ℚ)) ∧
      (∀ (a b : Row) (t : ℤ), a.QuarterDate = none → b.QuarterDate = some { time := some t } →
        0 < t → ¬ List.Sublist [b, a] (filtered earlyRows "Base")) ∧
      (∀ (a b : Row) (t : ℤ), a.QuarterDate = none → b.QuarterDate = some { time := some t } →
        t < 0 → ¬ List.Sublist [a, b] (filtered earlyRows "Base")) :=
  filtered_ascending earlyRows "Base" (by decide)

/-- C10 (as stated, refuted). The label `0024-Q1` gives 1 January 1924, not
1 January of the year 24; the label `2024-Q5` gives 1 January 2025 and the
label `2024-Q0` gives 1 October 2023, neither of them in the year 2024. -/
theorem quarterToDate_counterexample :
    quarterToDate parsesNothing (some "0024-Q1") = some { time := some (-1451692800000) } ∧
      Calendar.utcMidnight 1924 1 1 = -1451692800000 ∧
      Calendar.utcMidnight 24 1 1 = -61409836800000 ∧
      quarterToDate parsesNothing (some "2024-Q5") = some { time := some 1735689600000 } ∧
      Calendar.utcMidnight 2025 1 1 = 1735689600000 ∧
      quarterToDate parsesNothing (some "2024-Q0") = some { time := some 1696118400000 } ∧
      Calendar.utcMidnight 2023 10 1 = 1696118400000 := by
  decide!

/-- C10 (amended). For a label made of four digits of a year `Y` from 0100 to
9999, an optional single `-` or space, `Q` or `q`, and a digit `N` from 1 to 4,
`quarterToDate` returns 00:00 UTC of the first day of the zero-based month
`(N-1)*3` of the year `Y`, whatever the host date parser does. -/
theorem quarterToDate_quarter (dateParse : String → Option ℤ) (y1 y2 y3 y4 : Char)
    (sep : List Char) (q n : Char)
    (hy : y1.isDigit = true ∧ y2.isDigit = true ∧ y3.isDigit = true ∧ y4.isDigit = true)
    (hsep : sep = [] ∨ sep = ['-'] ∨ sep = [' ']) (hq : q = 'Q' ∨ q = 'q')
    (hn : n = '1' ∨ n = '2' ∨ n = '3' ∨ n = '4')
    (hyear : 100 ≤ JS.digitsValue [y1, y2, y3, y4]) :
    quarterToDate dateParse (some (String.mk ([y1, y2, y3, y4] ++ sep ++ [q, n]))) =
      some { time := some (Calendar.utcMidnight (JS.digitsValue [y1, y2, y3, y4] : ℤ)
        (((JS.digitsValue [n] : ℤ) - 1) * 3 + 1) 1) } := by
  obtain ⟨h1, h2, h3, h4⟩ := hy
  have hnd : n.isDigit = true := by
    rcases hn with rfl | rfl | rfl | rfl <;> decide
  have hnv : 1 ≤ (JS.digitsValue [n] : ℤ) ∧ (JS.digitsValue [n] : ℤ) ≤ 4 := by
    rcases hn with rfl | rfl | rfl | rfl <;> decide
  have hle := digitsValue_four y1 y2 y3 y4 h1 h2 h3 h4
  have hY : (100 : ℤ) ≤ (JS.digitsValue [y1, y2, y3, y4] : ℤ) ∧
      (JS.digitsValue [y1, y2, y3, y4] : ℤ) ≤ 9999 := by
    constructor <;> exact_mod_cast (by assumption)
  rw [quarterToDate_label dateParse y1 y2 y3 y4 sep q n h1 h2 h3 h4 hsep hq hnd,
    JS.dateUTC_quarter _ _ hY hnv, Option.some_bind,
    JS.timeClip_utcMidnight_quarter _ _ ⟨by omega, hY.2⟩ hnv]

/-- C10 (witness): the labels `2024-Q1` and `2024 Q2` give 1 January 2024 and
1 April 2024, 00:00 UTC. -/
theorem quarterToDate_quarter_witness :
    quarterToDate parsesNothing (some "2024-Q1") =
        some { time := some (Calendar.utcMidnight 2024 1 1) } ∧
      quarterToDate parsesNothing (some "2024 Q2") =
        some { time := some (Calendar.utcMidnight 2024 4 1) } ∧
      Calendar.utcMidnight 2024 1 1 = 1704067200000 ∧
      Calendar.utcMidnight 2024 4 1 = 1711929600000 :=
  ⟨quarterToDate_quarter parsesNothing '2' '0' '2' '4' ['-'] 'Q' '1'
      (by decide) (by decide) (by decide) (by decide) (by decide),
    quarterToDate_quarter parsesNothing '2' '0' '2' '4' [' '] 'Q' '2'
      (by decide) (by decide) (by decide) (by decide) (by decide),
    by decide, by decide⟩

/-- C11 (the code at the failing input). The label `FY24` is no quarter, and
for a host that cannot read it as a date `quarterToDate` returns an invalid
date object, not the `null` it returns for an empty or missing label. The
same holds for every non-empty label without a quarter in it that the host
cannot parse; and `null` is returned for a missing or empty label only. -/
theorem quarterToDate_unparseable_label :
    quarterToDate parsesNothing (some "FY24") = some { time := none } ∧
      quarterToDate parsesNothing (some "") = none ∧
      quarterToDate parsesNothing none = none ∧
      (∀ (dateParse : String → Option ℤ) (q : String), q ≠ "" →
        search (JS.replaceFirst 'q' ['Q'] (JS.replaceFirst ' ' [] q.toList)) = none →
        dateParse q = none →
        quarterToDate dateParse (some q) = some { time := none }) ∧
      (∀ (dateParse : String → Option ℤ) (q : Option String),
        quarterToDate dateParse q = none ↔ q = none ∨ q = some "") := by
  refine ⟨by decide!, by decide!, by decide!, ?_, quarterToDate_eq_none_iff⟩
  intro dateParse q hne hs hp
  rw [quarterToDate_fallback dateParse q hne hs, hp]
  rfl

/-- C12 (the code at the failing input). For the file with one line of
scenario `Base` whose period label is `n/a`, the normalizer produces a row with
an invalid date and the chart cell throws a `RangeError` for the selection
`Base`. In general the cell, run on the rows the normalizer produces, throws
exactly when a line of the selected scenario has a label that is normalized to
an invalid date; a file of quarter labels gives the series. -/
theorem chartCell_raises_on_unparseable_label :
    (data parsesNothing rawInvalid).map (fun d => d.QuarterDate) = [some { time := none }] ∧
      chartCell (data parsesNothing rawInvalid) "Base" = .error JSError.rangeError ∧
      (chartCell (data parsesNothing rawValid) "Base").toBool = true ∧
      (∀ (dateParse : String → Option ℤ) (raw : List RawRow) (scenario : String) (e : JSError),
        chartCell (data dateParse raw) scenario = .error e ↔
          e = JSError.rangeError ∧
            ∃ r ∈ raw, r.lookup "Scenario" = some scenario ∧
              (normalizeRow dateParse r).QuarterDate = some { time := none }) := by
  refine ⟨by decide!, by decide!, by decide!, ?_⟩
  intro dateParse raw scenario e
  rw [chartCell_error_iff, data, exists_scale_iff]
  constructor
  · rintro ⟨he, d, hd, hs, hq⟩
    obtain ⟨r, hr, rfl⟩ := List.mem_map.mp hd
    exact ⟨he, r, hr, hs, hq⟩
  · rintro ⟨he, r, hr, hs, hq⟩
    exact ⟨he, normalizeRow dateParse r, List.mem_map.mpr ⟨r, hr, rfl⟩, hs, hq⟩

/-- C13 (the code at the failing input). The cells `$`, `%`, `,` and a blank
are normalized to the number 0, and the cell `0x1A` to 26, where the sentinel
was due; the sentinel is given for a missing or empty cell and for text such
as `abc` or `12abc`, and `$1,234.5%` gives 1234.5. In general a non-empty cell
made only of `,`, `$`, `%` and white space is normalized to 0, and a non-empty
cell is normalized to `Number` of what is left once `,`, `$`, `%` are removed. -/
theorem parseMetric_blank_is_zero :
    parseMetric (some "$") = some 0 ∧ parseMetric (some "%") = some 0 ∧
      parseMetric (some ",") = some 0 ∧ parseMetric (some " ") = some 0 ∧
      parseMetric (some "0x1A") = some 26 ∧
      parseMetric (some "") = none ∧ parseMetric none = none ∧
      parseMetric (some "abc") = none ∧ parseMetric (some "12abc") = none ∧
      parseMetric (some "$1,234.5%") = some (2469 / 2) ∧
      (∀ s : String, s ≠ "" →
        (∀ c ∈ s.toList, c = ',' ∨ c = '$' ∨ c = '%' ∨ JS.isStrWhiteSpace c = true) →
        parseMetric (some s) = some 0) ∧
      (∀ s : String, s ≠ "" →
        parseMetric (some s) = JS.toNumber
          (String.mk (s.toList.filter (fun c => !(c == ',' || c == '$' || c == '%'))))) := by
  refine ⟨by decide!, by decide!, by decide!, by decide!, by decide!, by decide!, by decide!,
    by decide!, by decide!, by decide!, parseMetric_blank, ?_⟩
  intro s hne
  simp only [parseMetric, if_neg hne]

/-- C14 (the code at the failing input). For the one row of scenario `Base`
whose label `FY24` gave an invalid date the cell returns none of the three
results: it throws a `RangeError`. For every dataset the cell returns the
"no data" marker exactly when the dataset is empty and the "no rows" marker
exactly when it is not empty and no row has the selected scenario; when a row
matches and no matching row carries an invalid date it returns one series per
metric, in the order of the metrics, each with the values of the filtered rows.
Two matching rows whose metrics are all `NaN` give series of `null` points. -/
theorem chartCell_three_results :
    chartCell fiscalRows "Base" = .error JSError.rangeError ∧
      (chartCell nanRows "Base").map (fun r =>
          match r with
          | Result.charts series => series.map (fun s => (s.1, s.2.map (fun p => p.value)))
          | _ => [])
        = .ok [("Gross Revenue", [none, none]), ("Net Margins", [none, none]),
            ("Net Revenue Retention", [none, none]), ("CAC Payback", [none, none])] ∧
      (∀ (data : List Row) (scenario : String),
        (chartCell data scenario = .ok Result.noData ↔ data = []) ∧
        (chartCell data scenario = .ok Result.noRows ↔
          data ≠ [] ∧ ∀ d ∈ data, d.Scenario ≠ some scenario) ∧
        ((∃ d ∈ data, d.Scenario = some scenario) →
          (∀ d ∈ data, d.Scenario = some scenario → d.QuarterDate ≠ some { time := none }) →
          ∃ series, chartCell data scenario = .ok (Result.charts series) ∧
            series.map (fun s => s.1) = metrics ∧
            ∀ s ∈ series, s.2.map (fun p => p.value) =
              (filtered data scenario).map (fun d => d.get s.1))) := by
  refine ⟨by decide!, by decide!, ?_⟩
  intro data scenario
  have hcases : data = [] ∨ (data ≠ [] ∧ ∀ d ∈ data, d.Scenario ≠ some scenario) ∨
      (data ≠ [] ∧ ∃ d ∈ data, d.Scenario = some scenario) := by
    by_cases h1 : data = []
    · exact Or.inl h1
    · by_cases h2 : ∃ d ∈ data, d.Scenario = some scenario
      · exact Or.inr (Or.inr ⟨h1, h2⟩)
      · refine Or.inr (Or.inl ⟨h1, fun d hd hs => h2 ⟨d, hd, hs⟩⟩)
  have hthird : (∃ d ∈ data, d.Scenario = some scenario) →
      (∀ d ∈ data, d.Scenario = some scenario → d.QuarterDate ≠ some { time := none }) →
      ∃ series, chartCell data scenario = .ok (Result.charts series) ∧
        series.map (fun s => s.1) = metrics ∧
        ∀ s ∈ series, s.2.map (fun p => p.value) =
          (filtered data scenario).map (fun d => d.get s.1) := by
    intro hm hv
    obtain ⟨series, h1, h2, h3⟩ := chartCell_valid data scenario hm hv
    exact ⟨series, h1, h2, fun s hs => (h3 s hs).2⟩
  rcases hcases with h | ⟨hne, hno⟩ | ⟨hne, hm⟩
  · subst h
    refine ⟨⟨fun _ => rfl, fun _ => rfl⟩, ⟨?_, ?_⟩, hthird⟩
    · intro h
      cases h
    · rintro ⟨h, _⟩
      exact absurd rfl h
  · have hc := chartCell_no_match data scenario hne hno
    refine ⟨⟨?_, fun h => absurd h hne⟩, ⟨fun _ => ⟨hne, hno⟩, fun _ => hc⟩, hthird⟩
    intro h
    rw [hc] at h
    cases h
  · refine ⟨⟨?_, fun h => absurd h hne⟩, ⟨?_, ?_⟩, hthird⟩
    · intro h
      by_cases hinv : ∃ d ∈ data, d.Scenario = some scenario ∧
          d.QuarterDate = some { time := none }
      · rw [chartCell_invalid data scenario hinv] at h
        cases h
      · obtain ⟨series, hs, _⟩ := chartCell_valid data scenario hm
          (fun d hd hsc hq => hinv ⟨d, hd, hsc, hq⟩)
        rw [hs] at h
        cases h
    · intro h
      by_cases hinv : ∃ d ∈ data, d.Scenario = some scenario ∧
          d.QuarterDate = some { time := none }
      · rw [chartCell_invalid data scenario hinv] at h
        cases h
      · obtain ⟨series, hs, _⟩ := chartCell_valid data scenario hm
          (fun d hd hsc hq => hinv ⟨d, hd, hsc, hq⟩)
        rw [hs] at h
        cases h
    · rintro ⟨_, hno⟩
      obtain ⟨d, hd, hs⟩ := hm
      exact absurd hs (hno d hd)

/-- C15. The default Pareto metric is the first declared metric, `Revenue
impact`. For a dataset with at least one non-empty `Scenario` value the
observed scenarios are the distinct non-empty `Scenario` values in
first-occurrence order (without repetition, and holding exactly the non-empty
values of the rows), there is at least one, and the default scenario is `Base`
when `Base` is among them and the first observed scenario otherwise. -/
theorem default_selection (data : List Row)
    (h : ∃ d ∈ data, ∃ s, d.Scenario = some s ∧ s ≠ "") :
    Pareto.defaultCol = Pareto.impactCols.head? ∧
      Pareto.defaultCol = some "Revenue impact" ∧
      scenarios data =
        JS.distinctFirst ((data.filterMap (fun d => d.Scenario)).filter (fun s => s ≠ "")) ∧
      (scenarios data).Nodup ∧
      (∀ s, s ∈ scenarios data ↔ s ≠ "" ∧ ∃ d ∈ data, d.Scenario = some s) ∧
      scenarios data ≠ [] ∧
      opts (scenarios data) = scenarios data ∧
      defaultVal (scenarios data) =
        if "Base" ∈ scenarios data then some "Base" else (scenarios data).head? := by
  have hmem : ∀ s, s ∈ scenarios data ↔ s ≠ "" ∧ ∃ d ∈ data, d.Scenario = some s := by
    intro s
    simp only [scenarios, JS.mem_firstOccurrences, List.mem_filter, List.mem_filterMap,
      decide_eq_true_eq]
    tauto
  have hne : scenarios data ≠ [] := by
    obtain ⟨d, hd, s, hs, hsne⟩ := h
    intro hnil
    have : s ∈ scenarios data := (hmem s).mpr ⟨hsne, d, hd, hs⟩
    rw [hnil] at this
    exact absurd this (List.not_mem_nil _)
  have hopts : opts (scenarios data) = scenarios data := by
    have hlen : (scenarios data).length ≠ 0 := by simpa using hne
    simp only [opts, hlen, ne_eq, not_false_eq_true, if_true]
  refine ⟨rfl, rfl, JS.firstOccurrences_eq_distinctFirst _, JS.firstOccurrences_nodup _, hmem,
    hne, hopts, ?_⟩
  unfold defaultVal
  rw [hopts]
  split_ifs
  · rfl
  · cases scenarios data <;> rfl

/-- C15 (witness): rows with the `Scenario` cells `Optimistic`, empty, `Base`,
`Optimistic` and one row without the column. -/
theorem default_selection_witness :
    Pareto.defaultCol = Pareto.impactCols.head? ∧
      Pareto.defaultCol = some "Revenue impact" ∧
      scenarios scenarioRows =
        JS.distinctFirst
          ((scenarioRows.filterMap (fun d => d.Scenario)).filter (fun s => s ≠ "")) ∧
      (scenarios scenarioRows).Nodup ∧
      (∀ s, s ∈ scenarios scenarioRows ↔ s ≠ "" ∧ ∃ d ∈ scenarioRows, d.Scenario = some s) ∧
      scenarios scenarioRows ≠ [] ∧
      opts (scenarios scenarioRows) = scenarios scenarioRows ∧
      defaultVal (scenarios scenarioRows) =
        if "Base" ∈ scenarios scenarioRows then some "Base"
        else (scenarios scenarioRows).head? :=
  default_selection scenarioRows (by decide)

end Scenario

namespace Pareto

/-- C16 (the code at the failing input). A record of key `__proto__` writes
its revenue impact on `Object.prototype`; for the record after it, whose key is
`Revenue impact`, `byPain[key]` is then the inherited number and `count++` on
it throws a `TypeError`, so the view computes no trace. For every list of
aggregated rows the traces are the three of `prepareTraces` for each impact
column in declared order, fifteen in all, visible for the first column only;
the mask of the `i`-th button has fifteen entries, true exactly at `3i`,
`3i+1`, `3i+2`; and for a non-empty dataset without the key `__proto__` the
view consists of these traces and the buttons of the impact columns. -/
theorem view_traces_and_buttons :
    view typeErrorRecords = .error JSError.typeError ∧
      view exampleRecords = .ok (View.chart
        (traces [ { painPoints := "A", cols := impactCols.map (fun c =>
                      (c, if c = "Revenue impact" then 15 else 0)) },
                  { painPoints := "B", cols := impactCols.map (fun c =>
                      (c, if c = "Revenue impact" then 5 else 0)) } ])
        (impactCols.enum.map (fun ic => (ic.2, visibility ic.1)))) ∧
      (∀ a : List AggRow,
        (traces a).length = 3 * impactCols.length ∧
        (∀ i k, i < impactCols.length → k < 3 →
          ∃ col t, impactCols.get? i = some col ∧ (prepareTraces a col).get? k = some t ∧
            (traces a).get? (3 * i + k) = some { t with visible := decide (i = 0) }) ∧
        (traces a).map (fun t => t.visible) =
          [true, true, true, false, false, false, false, false, false, false, false, false,
            false, false, false]) ∧
      (∀ i j, j < 3 * impactCols.length →
        (visibility i).length = 3 * impactCols.length ∧
          (visibility i).get? j = some (decide (3 * i ≤ j ∧ j ≤ 3 * i + 2))) ∧
      (∀ data : List Record, data ≠ [] → (∀ d ∈ data, keyOf d ≠ "__proto__") →
        ∃ a, agg data = .ok a ∧
          view data = .ok (View.chart (traces a)
            (impactCols.enum.map (fun ic => (ic.2, visibility ic.1))))) := by
  refine ⟨by decide!, by decide!, ?_, ?_, ?_⟩
  · intro a
    exact ⟨traces_length a, fun i k hi hk => traces_get? a i k hi hk, traces_visible a⟩
  · intro i j hj
    exact ⟨visibility_length i, visibility_get? i j hj⟩
  · intro data hne hproto
    exact ⟨_, agg_eq data hproto, view_eq data hne _ (agg_eq data hproto)⟩

/-- C17 (the code at the failing input). The dataset of the one record of key
`constructor` is not empty, yet it has no aggregated row, and the reference
line of `prepareTraces` then has the two `undefined` end points. For every
list of aggregated rows `prepareTraces` returns the bar of the values, the line
of the cumulative percentages and the reference line, the first two with one
entry per aggregated row over the same category list, the third with
`x = [80, 80]` and the first and last category as `y`; both exist when there
is an aggregated row, and there is one for every dataset without the key
`__proto__` one of whose keys is not the name of a function of
`Object.prototype`. -/
theorem prepareTraces_reference_line :
    constructorRecords ≠ [] ∧ agg constructorRecords = .ok [] ∧
      (prepareTraces [] "Revenue impact").map (fun t => (t.x, t.y)) =
        [([], []), ([], []), ([80, 80], [none, none])] ∧
      (∀ (a : List AggRow) (col : String),
        ∃ bar line cutoff, prepareTraces a col = [bar, line, cutoff] ∧
          bar.x = vals a col ∧ line.x = pct a col ∧
          bar.x.length = a.length ∧ line.x.length = a.length ∧
          bar.y = (y a col).map some ∧ line.y = (y a col).map some ∧
          (y a col).length = a.length ∧
          cutoff.x = [80, 80] ∧ cutoff.y = [(y a col).head?, (y a col).getLast?] ∧
          (a ≠ [] → ∃ f l, cutoff.y = [some f, some l])) ∧
      (∀ data : List Record, (∀ d ∈ data, keyOf d ≠ "__proto__") →
        (∃ d ∈ data, keyOf d ∉ JS.protoFunctionNames) → ∃ a, agg data = .ok a ∧ a ≠ []) := by
  refine ⟨by decide, by decide!, by decide!, ?_, agg_ne_nil⟩
  intro a col
  obtain ⟨bar, line, cutoff, h, hb, hl, hby, hly, hcx, hcy⟩ := prepareTraces_shape a col
  refine ⟨bar, line, cutoff, h, hb, hl, ?_, ?_, hby, hly, y_length a col, hcx, hcy, ?_⟩
  · rw [hb, vals_length]
  · rw [hl, pct_length]
  · intro hne
    obtain ⟨f, l, hf, hll⟩ := y_head_getLast a col hne
    exact ⟨f, l, by rw [hcy, hf, hll]⟩

/-- C18 (the code at the failing input). After a record of key `__proto__`
with the revenue impact 7, the key `B` with the values 1 and empty gets
(7 + 1 + 0) / 2 = 4, where the sum of its values with 0 for the empty one, over
its two records, is 1/2. For every dataset without the key `__proto__` the
aggregation returns rows, one for every key that is not the name of a function
of `Object.prototype`, and the value of every row for an impact column is the
sum over all records of the key of the parsed value, with 0 for a value that
does not parse, divided by the number of all records of the key. -/
theorem agg_zero_filled_mean :
    (agg pollutedRecords).map
        (fun rows => rows.map (fun r => (r.painPoints, r.num "Revenue impact")))
        = .ok [("B", 4)] ∧
      zeroFilledMean pollutedRecords "B" "Revenue impact" = 1 / 2 ∧
      (agg mixedRecords).map
        (fun rows => rows.map (fun r => (r.painPoints, r.num "Revenue impact")))
        = .ok [("A", zeroFilledMean mixedRecords "A" "Revenue impact")] ∧
      (∀ data : List Record, (∀ d ∈ data, keyOf d ≠ "__proto__") →
        ∃ rows, agg data = .ok rows ∧
          (∀ d ∈ data, keyOf d ∉ JS.protoFunctionNames →
            ∃ row ∈ rows, row.painPoints = keyOf d) ∧
          ∀ row ∈ rows, ∀ c ∈ impactCols,
            row.num c = zeroFilledMean data row.painPoints c) := by
  refine ⟨by decide!, by decide!, by decide!, ?_⟩
  intro data hproto
  refine ⟨_, agg_eq data hproto, ?_, ?_⟩
  · intro d hd hfn
    refine ⟨aggRow [] (keyOf d, groupOf data (keyOf d)), ?_, rfl⟩
    exact (mem_agg_rows data _).mpr
      ⟨keyOf d, (mem_keysOf data _).mpr ⟨List.mem_map.mpr ⟨d, hd, rfl⟩, hfn⟩, rfl⟩
  · intro row hrow c hc
    obtain ⟨k, _, rfl⟩ := (mem_agg_rows data row).mp hrow
    exact aggRow_num_zeroFilled data k c hc

/-- C19. For a list of aggregated rows whose values for the metric are all
non-negative, the cumulative percentages of `prepareTraces` do not decrease
from one position to the next (nor to any later one) and every one of them
lies between 0 and 100. -/
theorem pct_nondecreasing_bounded (agg : List AggRow) (col : String)
    (h : ∀ r ∈ agg, 0 ≤ r.num col) :
    (pct agg col).Pairwise (fun a b => a ≤ b) ∧ ∀ p ∈ pct agg col, 0 ≤ p ∧ p ≤ 100 :=
  pctOf_cumOf_monotone (vals agg col) (vals_nonneg agg col h)

/-- C19 (witness): the rows `A` with 15 and `B` with 5, whose cumulative
percentages are 75 and 100. -/
theorem pct_nondecreasing_bounded_witness :
    ((pct exampleAgg "Revenue impact").Pairwise (fun a b => a ≤ b) ∧
        ∀ p ∈ pct exampleAgg "Revenue impact", 0 ≤ p ∧ p ≤ 100) ∧
      pct exampleAgg "Revenue impact" = [75, 100] :=
  ⟨pct_nondecreasing_bounded exampleAgg "Revenue impact" (by decide!), by decide!⟩

end Pareto

namespace Scenario

/-- C20. For two labels made of a four-digit year from 1970 on, an optional
`-` or space, `Q` or `q`, and a quarter digit from 1 to 4, `quarterToDate`
returns two valid dates; the first is strictly earlier than the second exactly
when its pair of year and quarter is smaller in the lexicographic order, and
the dates are equal exactly when the pairs are equal. -/
theorem quarterToDate_order (dateParse : String → Option ℤ)
    (a1 a2 a3 a4 b1 b2 b3 b4 : Char) (sepA sepB : List Char) (qA qB nA nB : Char)
    (ha : a1.isDigit = true ∧ a2.isDigit = true ∧ a3.isDigit = true ∧ a4.isDigit = true)
    (hb : b1.isDigit = true ∧ b2.isDigit = true ∧ b3.isDigit = true ∧ b4.isDigit = true)
    (hsepA : sepA = [] ∨ sepA = ['-'] ∨ sepA = [' '])
    (hsepB : sepB = [] ∨ sepB = ['-'] ∨ sepB = [' '])
    (hqA : qA = 'Q' ∨ qA = 'q') (hqB : qB = 'Q' ∨ qB = 'q')
    (hnA : nA = '1' ∨ nA = '2' ∨ nA = '3' ∨ nA = '4')
    (hnB : nB = '1' ∨ nB = '2' ∨ nB = '3' ∨ nB = '4')
    (hyA : 1970 ≤ JS.digitsValue [a1, a2, a3, a4])
    (hyB : 1970 ≤ JS.digitsValue [b1, b2, b3, b4]) :
    ∃ tA tB : ℤ,
      quarterToDate dateParse (some (String.mk ([a1, a2, a3, a4] ++ sepA ++ [qA, nA]))) =
        some { time := some tA } ∧
      quarterToDate dateParse (some (String.mk ([b1, b2, b3, b4] ++ sepB ++ [qB, nB]))) =
        some { time := some tB } ∧
      (tA < tB ↔
        JS.digitsValue [a1, a2, a3, a4] < JS.digitsValue [b1, b2, b3, b4] ∨
          (JS.digitsValue [a1, a2, a3, a4] = JS.digitsValue [b1, b2, b3, b4] ∧
            JS.digitsValue [nA] < JS.digitsValue [nB])) ∧
      (tA = tB ↔
        JS.digitsValue [a1, a2, a3, a4] = JS.digitsValue [b1, b2, b3, b4] ∧
          JS.digitsValue [nA] = JS.digitsValue [nB]) := by
  obtain ⟨_, hvA⟩ := quarter_digit_value nA hnA
  obtain ⟨_, hvB⟩ := quarter_digit_value nB hnB
  have hlt := JS.daysFromCivil_quarter_lt_iff (JS.digitsValue [a1, a2, a3, a4] : ℤ)
    (JS.digitsValue [b1, b2, b3, b4] : ℤ) (JS.digitsValue [nA] : ℤ) (JS.digitsValue [nB] : ℤ)
    hvA hvB
  have heq := JS.daysFromCivil_quarter_eq_iff (JS.digitsValue [a1, a2, a3, a4] : ℤ)
    (JS.digitsValue [b1, b2, b3, b4] : ℤ) (JS.digitsValue [nA] : ℤ) (JS.digitsValue [nB] : ℤ)
    hvA hvB
  refine ⟨_, _,
    quarterToDate_label_time dateParse a1 a2 a3 a4 sepA qA nA ha hsepA hqA hnA (by omega),
    quarterToDate_label_time dateParse b1 b2 b3 b4 sepB qB nB hb hsepB hqB hnB (by omega),
    ?_, ?_⟩
  · constructor
    · intro h
      have h1 := hlt.mp (by omega)
      omega
    · intro h
      have h1 := hlt.mpr (by omega)
      omega
  · constructor
    · intro h
      have h1 := heq.mp (by omega)
      omega
    · intro h
      have h1 := heq.mpr (by omega)
      omega

/-- C20 (witness): the labels `2023-Q4` and `2024 q1`; the first date is the
earlier one. -/
theorem quarterToDate_order_witness :
    ∃ tA tB : ℤ,
      quarterToDate parsesNothing (some "2023-Q4") = some { time := some tA } ∧
      quarterToDate parsesNothing (some "2024 q1") = some { time := some tB } ∧
      (tA < tB ↔
        JS.digitsValue ['2', '0', '2', '3'] < JS.digitsValue ['2', '0', '2', '4'] ∨
          (JS.digitsValue ['2', '0', '2', '3'] = JS.digitsValue ['2', '0', '2', '4'] ∧
            JS.digitsValue ['4'] < JS.digitsValue ['1'])) ∧
      (tA = tB ↔
        JS.digitsValue ['2', '0', '2', '3'] = JS.digitsValue ['2', '0', '2', '4'] ∧
          JS.digitsValue ['4'] = JS.digitsValue ['1']) :=
  quarterToDate_order parsesNothing '2' '0' '2' '3' '2' '0' '2' '4' ['-'] [' '] 'Q' 'q' '4' '1'
    (by decide) (by decide) (by decide) (by decide) (by decide) (by decide) (by decide)
    (by decide) (by decide) (by decide)

end Scenario
